import Mathlib

/-!
# Verification of the raptorCDN block-partitioned codec

A shallow embedding of `src/codec/consts.rs`, `src/codec/encoder.rs` and
`src/codec/decoder.rs` (the block-partitioned encode/decode pipeline), with
theorems settling the specification's claims about it.

Conventions of the embedding:
* Rust byte buffers (`Vec<u8>`, `&[u8]`) are `List Nat`; machine integers are
  `Nat`, with an explicit `% 2 ^ w` wherever the Rust source performs a
  narrowing `as` cast (`as u16`, `as u32`).  Widening casts (`usize as u64`,
  `u8 as u16`) are the identity and carry no `%`.
* Fallible Rust functions (`Result`, `anyhow::Result`) become `Except`.
* The `raptorq` crate is an external collaborator; the spec (§6) fixes its
  contract and those definitions are marked `Modelled from the spec:`.
* Randomness (`thread_rng`) is modeled by explicit parameters: the random
  starting symbol id of each `encode_data` call is an argument, and the
  `shuffle` of the per-block packet lists is modeled in the theorems by
  quantifying over permutations of the concatenated output.
-/

/-! ## Constants (`src/codec/consts.rs`) -/

/-- Source `RAPTORQ_ENCODING_SYMBOL_ID_MAX: usize = 1 << 24`. -/
def RAPTORQ_ENCODING_SYMBOL_ID_MAX : Nat := 1 <<< 24

/-- Source `RAPTORQ_MAX_SYMBOLS_IN_BLOCK: usize = 56403`. -/
def RAPTORQ_MAX_SYMBOLS_IN_BLOCK : Nat := 56403

/-- Source `ALIGNMENT: u8 = 8`. -/
def ALIGNMENT : Nat := 8

/-- Source `PEER_SPACE_SIZE: usize = 256`. -/
def PEER_SPACE_SIZE : Nat := 256

/-- Source `SOURCE_BLOCK_SYMBOL_COUNT_LIMIT` =
`const_min(RAPTORQ_ENCODING_SYMBOL_ID_MAX/PEER_SPACE_SIZE, RAPTORQ_MAX_SYMBOLS_IN_BLOCK)`. -/
def SOURCE_BLOCK_SYMBOL_COUNT_LIMIT : Nat :=
  min (RAPTORQ_ENCODING_SYMBOL_ID_MAX / PEER_SPACE_SIZE) RAPTORQ_MAX_SYMBOLS_IN_BLOCK

/-- Source `MIN_PACKET_SIZE: u16 = 512`. -/
def MIN_PACKET_SIZE : Nat := 512

/-- Modelled from the spec: `MAX_SYMBOLS_IN_BLOCK` is referenced by
`src/codec/encoder.rs` and imported by the tests from `codec::consts`, but its
definition is not among the provided sources.  Spec §4.1 describes it as the
"hard cap on source symbols per block, dictated by the external FEC
primitive's own limit", which is `RAPTORQ_MAX_SYMBOLS_IN_BLOCK = 56403`
(a `u16` value, as required by the comparison with a `u16` in
`BlockEncoder::new`). -/
def MAX_SYMBOLS_IN_BLOCK : Nat := RAPTORQ_MAX_SYMBOLS_IN_BLOCK

/-! ## Generic list helpers used by the embedding -/

/-- Models `Iterator::collect::<Result<Vec<_>, _>>()`: apply `f` to each
element in order, stopping at the first error. -/
def collectExcept (f : α → Except ε β) : List α → Except ε (List β)
  | [] => .ok []
  | x :: xs =>
    match f x with
    | .error e => .error e
    | .ok y =>
      match collectExcept f xs with
      | .error e => .error e
      | .ok ys => .ok (y :: ys)

/-- Decidable equality of `Except` results, for evaluating the model on
concrete inputs. -/
instance [DecidableEq e] [DecidableEq a] : DecidableEq (Except e a)
  | .error x, .error y =>
    if h : x = y then .isTrue (by rw [h]) else .isFalse (by intro hc; cases hc; exact h rfl)
  | .error _, .ok _ => .isFalse (by intro hc; cases hc)
  | .ok _, .error _ => .isFalse (by intro hc; cases hc)
  | .ok x, .ok y =>
    if h : x = y then .isTrue (by rw [h]) else .isFalse (by intro hc; cases hc; exact h rfl)

/-- In-place update of one vector element (`self.v[i] = f(self.v[i])`);
out-of-range indices leave the list unchanged. -/
def listModify (f : α → α) : Nat → List α → List α
  | _, [] => []
  | 0, x :: xs => f x :: xs
  | i + 1, x :: xs => x :: listModify f i xs

/-- Models `slice::chunks(n)`: successive sub-slices of length `n`, the last
one possibly shorter.  Rust's `chunks` panics when `n = 0`; that case is
modeled as the empty chunking and every theorem touching it carries
`0 < n`. -/
def chunksList (n : Nat) : List α → List (List α)
  | [] => []
  | x :: xs =>
    if _h : n = 0 then []
    else (x :: xs).take n :: chunksList n ((x :: xs).drop n)
termination_by l => l.length
decreasing_by
  simp only [List.length_drop, List.length_cons]
  omega

/-! ## The external FEC primitive (`raptorq` crate), modelled from the spec -/

/-- The `raptorq` crate's `ObjectTransmissionInformation`, built in
`BlockEncoder::new` as `ObjectTransmissionInformation::new(data.len() as u64,
packet_size, 1, 1, ALIGNMENT)`.  Only the constructor arguments are
retained; the codec treats it as opaque configuration (spec §3). -/
structure ObjectTransmissionInformation where
  transfer_length : Nat
  symbol_size : Nat
  source_blocks : Nat
  sub_blocks : Nat
  alignment : Nat
deriving DecidableEq

/-- The `raptorq` constructor `ObjectTransmissionInformation::new`. -/
def ObjectTransmissionInformation.new (transfer_length symbol_size source_blocks sub_blocks alignment : Nat) : ObjectTransmissionInformation :=
  ⟨transfer_length, symbol_size, source_blocks, sub_blocks, alignment⟩

/-- Modelled from the spec: a `SourceBlockEncodingPlan` is an "opaque,
symbol-count-keyed precomputed artifact" (spec §3); `generate` is
deterministic per symbol count (§6 `generate_plan`). -/
structure SourceBlockEncodingPlan where
  symbol_count : Nat
deriving DecidableEq

/-- Modelled from the spec: `SourceBlockEncodingPlan::generate(num_symbols)`. -/
def SourceBlockEncodingPlan.generate (num_symbols : Nat) : SourceBlockEncodingPlan :=
  ⟨num_symbols⟩

/-- Modelled from the spec: one FEC symbol (`raptorq::EncodingPacket`).  It
"carries its own encoding-symbol identifier internally" (spec §3) and its
contents are deterministically derived from the source block and the id
(spec glossary); the derivation is modeled by recording the padded source
block itself. -/
structure EncodingPacket where
  esi : Nat
  source_block : List Nat
deriving DecidableEq

/-- Modelled from the spec: `raptorq::SourceBlockEncoder` handle (§6
`build_encoder`). -/
structure SourceBlockEncoder where
  source_block : List Nat
deriving DecidableEq

/-- Source `SourceBlockEncoder::with_encoding_plan2(sbn, config, data, plan)`.
Plans for the same symbol count are interchangeable (spec §4.2), so the
handle retains only the data. -/
def SourceBlockEncoder.with_encoding_plan2 (_sbn : Nat) (_config : ObjectTransmissionInformation) (data : List Nat) (_plan : SourceBlockEncodingPlan) : SourceBlockEncoder :=
  ⟨data⟩

/-- Modelled from the spec: `handle.repair_packets(start_id, count)` returns
`count` symbols with ids `start_id, ..., start_id + count - 1` (§6). -/
def SourceBlockEncoder.repair_packets (e : SourceBlockEncoder) (start_id count : Nat) : List EncodingPacket :=
  (List.range count).map (fun i => ⟨start_id + i, e.source_block⟩)

/-- Modelled from the spec: `SourceBlockDecoder::new2(0, config, len).decode
(packets)`, the reconstruction primitive (§6 `build_decoder`/`reconstruct`).
Reconstruction succeeds exactly when all supplied symbols derive from one
source block of the configured length and the total symbol count reaches the
recovery threshold `block_length / symbol_size` (§8); it is absent
("insufficient/inconsistent symbols") otherwise. -/
def sourceBlockDecode (config : ObjectTransmissionInformation) (block_length : Nat) (packets : List EncodingPacket) : Option (List Nat) :=
  match packets with
  | [] => none
  | p :: rest =>
    if ((p :: rest).all (fun q => q.source_block == p.source_block))
        && (p.source_block.length == block_length)
        && (decide (block_length / config.symbol_size ≤ (p :: rest).length))
    then some p.source_block
    else none

/-! ## Plan cache data (`src/codec/encoder.rs`, cache section) -/

/-- The in-memory plan cache `HashMap<u16, SourceBlockEncodingPlan>`, modeled
as an association list with unique keys (the `HashMap` invariant). -/
abbrev PlanCache : Type := List (Nat × SourceBlockEncodingPlan)

/-- Source `HashMap::get(&k)`: first entry with the given key. -/
def lookupPlan : List (Nat × SourceBlockEncodingPlan) → Nat → Option SourceBlockEncodingPlan
  | [], _ => none
  | kv :: rest, k => if kv.1 = k then some kv.2 else lookupPlan rest k

/-- Source `HashMap::insert(k, v)`: replace the entry for `k` or add one. -/
def insertPlan : List (Nat × SourceBlockEncodingPlan) → Nat → SourceBlockEncodingPlan → List (Nat × SourceBlockEncodingPlan)
  | [], k, v => [(k, v)]
  | kv :: rest, k, v => if kv.1 = k then (k, v) :: rest else kv :: insertPlan rest k v

/-- Source `CachedEncodingPlan { source_symbol_count: u16, plan }`. -/
structure CachedEncodingPlan where
  source_symbol_count : Nat
  plan : SourceBlockEncodingPlan
deriving DecidableEq

/-! ## Encoder (`src/codec/encoder.rs`) -/

/-- Source `BlockEncoder::new` fails through `anyhow!` with one of two messages;
the spec's error taxonomy (§7) names them `InvalidPacketSize`
("bad packet size") and `DataSizeTooLarge` ("data length too large"). -/
inductive BlockEncoderError where
  | InvalidPacketSize
  | DataSizeTooLarge
deriving DecidableEq

/-- Source `EncodedBlock { block_id: u32, data: EncodingPacket }`. -/
structure EncodedBlock where
  block_id : Nat
  data : EncodingPacket
deriving DecidableEq

/-- Source `BlockInfo { payload_size: usize, padded_size: usize, config, block_id: u32 }`. -/
structure BlockInfo where
  payload_size : Nat
  padded_size : Nat
  config : ObjectTransmissionInformation
  block_id : Nat
deriving DecidableEq

/-- Source `BlockEncoder { config, data, payload_size, block_id, packet_size, encoding_plan }`. -/
structure BlockEncoder where
  config : ObjectTransmissionInformation
  data : List Nat
  payload_size : Nat
  block_id : Nat
  packet_size : Nat
  encoding_plan : SourceBlockEncodingPlan
deriving DecidableEq

/-- The zero-padding step of `BlockEncoder::new`:
`data.resize(data.len() + (packet_size - data.len() % packet_size), 0)`,
performed only when `data.len() % packet_size > 0`. -/
def padData (packet_size : Nat) (data : List Nat) : List Nat :=
  if data.length % packet_size > 0 then
    data ++ List.replicate (packet_size - data.length % packet_size) 0
  else data

/-- Source `BlockEncoder::new(block_id, packet_size, data, encoding_plan_cache)`.
`num_symbols` mirrors the source's `(data.len() / packet_size as usize) as
u16`, hence the `% 2 ^ 16`. -/
def BlockEncoder.new (block_id packet_size : Nat) (data : List Nat) (encoding_plan_cache : Option PlanCache) : Except BlockEncoderError BlockEncoder :=
  if packet_size % ALIGNMENT ≠ 0 ∨ packet_size < MIN_PACKET_SIZE then
    .error .InvalidPacketSize
  else
    let payload_size := data.length
    let padded := padData packet_size data
    let num_symbols := (padded.length / packet_size) % 2 ^ 16
    if num_symbols > MAX_SYMBOLS_IN_BLOCK then
      .error .DataSizeTooLarge
    else
      let encoding_plan :=
        match encoding_plan_cache with
        | some cache =>
          match lookupPlan cache num_symbols with
          | some plan => plan
          | none => SourceBlockEncodingPlan.generate num_symbols
        | none => SourceBlockEncodingPlan.generate num_symbols
      .ok ⟨ObjectTransmissionInformation.new padded.length packet_size 1 1 ALIGNMENT,
           padded, payload_size, block_id, packet_size, encoding_plan⟩

/-- Source `BlockEncoder::add_packets`: pops packets off the end of `packets` and
pushes them onto `blocks`, so they arrive in reverse order, tagged with
`block_id`. -/
def BlockEncoder.add_packets (blocks : List EncodedBlock) (packets : List EncodingPacket) (block_id : Nat) : List EncodedBlock :=
  blocks ++ packets.reverse.map (fun packet => ⟨block_id, packet⟩)

/-- Source `BlockEncoder::encode_data`.  `start_index` stands for the source's
`thread_rng().gen_range(0..RAPTORQ_ENCODING_SYMBOL_ID_MAX)` draw; the
`% 2 ^ 32` on the `repair_packets` arguments mirrors the `as u32` casts. -/
def BlockEncoder.encode_data (config : ObjectTransmissionInformation) (plan : SourceBlockEncodingPlan) (data : List Nat) (packet_size block_id start_index : Nat) : List EncodedBlock :=
  let encoder := SourceBlockEncoder.with_encoding_plan2 0 config data plan
  let packets_to_send := data.length / packet_size
  let packets_created := min (RAPTORQ_ENCODING_SYMBOL_ID_MAX - start_index) packets_to_send
  let blocks := BlockEncoder.add_packets []
    (encoder.repair_packets (start_index % 2 ^ 32) (packets_created % 2 ^ 32)) block_id
  if packets_created < packets_to_send then
    BlockEncoder.add_packets blocks
      (encoder.repair_packets 0 ((packets_to_send - packets_created) % 2 ^ 32)) block_id
  else blocks

/-- The `(start_id, count)` arguments of the `repair_packets` calls that
`BlockEncoder::encode_data` issues for a block of `packets_to_send` symbols
at random start `start_index` (the `% 2 ^ 32` mirrors the `as u32` casts). -/
def BlockEncoder.encode_data_requests (packets_to_send start_index : Nat) : List (Nat × Nat) :=
  if min (RAPTORQ_ENCODING_SYMBOL_ID_MAX - start_index) packets_to_send < packets_to_send then
    [(start_index % 2 ^ 32,
      min (RAPTORQ_ENCODING_SYMBOL_ID_MAX - start_index) packets_to_send % 2 ^ 32),
     (0, (packets_to_send
          - min (RAPTORQ_ENCODING_SYMBOL_ID_MAX - start_index) packets_to_send) % 2 ^ 32)]
  else
    [(start_index % 2 ^ 32,
      min (RAPTORQ_ENCODING_SYMBOL_ID_MAX - start_index) packets_to_send % 2 ^ 32)]

/-- Source `BlockEncoder::generate_encoded_blocks` (one call, with its random draw
`start_index` made explicit). -/
def BlockEncoder.generate_encoded_blocks (e : BlockEncoder) (start_index : Nat) : List EncodedBlock :=
  BlockEncoder.encode_data e.config e.encoding_plan e.data e.packet_size e.block_id start_index

/-- Source `BlockEncoder::get_block_info`. -/
def BlockEncoder.get_block_info (e : BlockEncoder) : BlockInfo :=
  ⟨e.payload_size, e.data.length, e.config, e.block_id⟩

/-- Source `RaptorQEncoder { block_encoders: Vec<BlockEncoder> }`. -/
structure RaptorQEncoder where
  block_encoders : List BlockEncoder
deriving DecidableEq

/-- Source `RaptorQEncoder::new(packet_size, data, encoding_plan_cache)`.  The
returned pair models the `&mut` cache argument: the second component is the
cache state after the update loop (`None` stays `None`).  `% 2 ^ 32` mirrors
`i as u32` on the chunk index; `% 2 ^ 16` mirrors the `as u16` on the
symbol count in the cache update. -/
def RaptorQEncoder.new (packet_size : Nat) (data : List Nat) (encoding_plan_cache : Option PlanCache) : Except BlockEncoderError (RaptorQEncoder × Option PlanCache) :=
  let block_size := MAX_SYMBOLS_IN_BLOCK * packet_size
  let data_chunks := chunksList block_size data
  match collectExcept
      (fun ic => BlockEncoder.new (ic.1 % 2 ^ 32) packet_size ic.2 encoding_plan_cache)
      data_chunks.enum with
  | .error e => .error e
  | .ok block_encoders =>
    match encoding_plan_cache with
    | some cache =>
      let uncached_values :=
        (block_encoders.map
          (fun encoder => ((encoder.data.length / encoder.packet_size) % 2 ^ 16,
                           encoder.encoding_plan))).filter
          (fun sv => (lookupPlan cache sv.1).isNone)
      .ok (⟨block_encoders⟩,
           some (uncached_values.foldl (fun acc kv => insertPlan acc kv.1 kv.2) cache))
    | none => .ok (⟨block_encoders⟩, none)

/-- Source `RaptorQEncoder::generate_encoded_blocks`, before the `shuffle`: the
concatenation of each block encoder's packets, with the per-encoder random
draws `start_indices` made explicit.  The `thread_rng` shuffle of the outer
list is modeled in the theorems by quantifying over permutations of this
list. -/
def RaptorQEncoder.generate_encoded_blocks (e : RaptorQEncoder) (start_indices : List Nat) : List EncodedBlock :=
  (List.zipWith (fun enc s => enc.generate_encoded_blocks s) e.block_encoders start_indices).flatten

/-- Source `RaptorQEncoder::get_block_info_vec`. -/
def RaptorQEncoder.get_block_info_vec (e : RaptorQEncoder) : List BlockInfo :=
  e.block_encoders.map (fun x => x.get_block_info)

/-! ## Decoder (`src/codec/decoder.rs`) -/

/-- Source `RaptorQDecoderError`. -/
inductive RaptorQDecoderError where
  | BadBlockId
  | RaptorQDecodeFailed
  | BadBlockInfo
deriving DecidableEq

/-- Source `BlockDecoder { block_info: BlockInfo }`. -/
structure BlockDecoder where
  block_info : BlockInfo
deriving DecidableEq

/-- Source `BlockDecoder::new` (always succeeds). -/
def BlockDecoder.new (block_info : BlockInfo) : Except RaptorQDecoderError BlockDecoder :=
  .ok ⟨block_info⟩

/-- Source `BlockDecoder::extract_packet`. -/
def BlockDecoder.extract_packet (block : EncodedBlock) (block_id : Nat) : Except RaptorQDecoderError EncodingPacket :=
  if block.block_id ≠ block_id then .error .BadBlockId
  else .ok block.data

/-- Source `BlockDecoder::extract_packets`. -/
def BlockDecoder.extract_packets (blocks : List EncodedBlock) (block_id : Nat) : Except RaptorQDecoderError (List EncodingPacket) :=
  collectExcept (fun block => BlockDecoder.extract_packet block block_id) blocks

/-- Source `BlockDecoder::decode_data`.  The source's
`assert_eq!(decoded_data.len(), block_info.padded_size)` holds by
construction of `sourceBlockDecode`; `truncate(payload_size)` is `take`. -/
def BlockDecoder.decode_data (block_info : BlockInfo) (blocks : List EncodedBlock) : Except RaptorQDecoderError (List Nat) :=
  match BlockDecoder.extract_packets blocks block_info.block_id with
  | .error err => .error err
  | .ok packets =>
    match sourceBlockDecode block_info.config block_info.padded_size packets with
    | none => .error .RaptorQDecodeFailed
    | some decoded_data => .ok (decoded_data.take block_info.payload_size)

/-- Source `BlockDecoder::decode_blocks` (takes `&self`: a pure function of the
stored `BlockInfo` and the packets). -/
def BlockDecoder.decode_blocks (dec : BlockDecoder) (blocks : List EncodedBlock) : Except RaptorQDecoderError (List Nat) :=
  BlockDecoder.decode_data dec.block_info blocks

/-- Source `RaptorQDecoder { block_decoder_data: Vec<(BlockDecoder, Vec<EncodedBlock>)> }`. -/
structure RaptorQDecoder where
  block_decoder_data : List (BlockDecoder × List EncodedBlock)
deriving DecidableEq

/-- Source `RaptorQDecoder::new`: compares the (unsorted) `block_id` list with
`0..block_info_vec.len()`, then pairs each `BlockDecoder` with an empty
packet buffer. -/
def RaptorQDecoder.new (block_info_vec : List BlockInfo) : Except RaptorQDecoderError RaptorQDecoder :=
  let block_ids := block_info_vec.map (fun block_info => block_info.block_id)
  if block_ids ≠ List.range block_info_vec.length then
    .error .BadBlockInfo
  else
    match collectExcept (fun block_info => BlockDecoder.new block_info) block_info_vec with
    | .ok block_decoders => .ok ⟨block_decoders.map (fun x => (x, []))⟩
    | .error e => .error e

/-- Source `RaptorQDecoder::consume_block` (`&mut self` becomes state passing):
returns the updated decoder and the count (1 if buffered, 0 if dropped). -/
def RaptorQDecoder.consume_block (d : RaptorQDecoder) (block : EncodedBlock) : RaptorQDecoder × Nat :=
  if block.block_id < d.block_decoder_data.length then
    (⟨listModify (fun bd => (bd.1, bd.2 ++ [block])) block.block_id d.block_decoder_data⟩, 1)
  else
    (d, 0)

/-- Source `RaptorQDecoder::consume_blocks`:
`blocks.into_iter().map(|block| self.consume_block(block)).sum()` — consume
each block in order through the threaded `&mut self`, summing the counts. -/
def RaptorQDecoder.consume_blocks (d : RaptorQDecoder) : List EncodedBlock → RaptorQDecoder × Nat
  | [] => (d, 0)
  | block :: blocks =>
    let r := d.consume_block block
    let rest := r.1.consume_blocks blocks
    (rest.1, r.2 + rest.2)

/-- Source `RaptorQDecoder::decode_blocks`: decode every block against its buffer
(first error wins) and concatenate the recovered bytes in vector order. -/
def RaptorQDecoder.decode_blocks (d : RaptorQDecoder) : Except RaptorQDecoderError (List Nat) :=
  match collectExcept (fun x => BlockDecoder.decode_blocks x.1 x.2) d.block_decoder_data with
  | .ok block_data_vec => .ok block_data_vec.flatten
  | .error err => .error err

/-! ## Plan cache persistence (`src/codec/encoder.rs`, load/save) -/

/-- Modelled from the spec: the persisted form of one plan is "a compressed
serialization of `{symbol_count, plan}`" (§6); the zlib + `serde_json`
encoding performed by the external crates is modeled by a constructor
wrapping the `CachedEncodingPlan`, `otherBytes` standing for any byte
stream that does not deserialize to one. -/
inductive FileContents where
  | planFile (cached_plan : CachedEncodingPlan)
  | otherBytes (bytes : List Nat)
deriving DecidableEq

/-- One `fs::read_dir` entry: its path (a character string, relative to the
cache directory), whether it `is_file`, and its contents. -/
structure DirEntry where
  path : List Char
  is_file : Bool
  contents : FileContents
deriving DecidableEq

/-- Errors of the cache persistence layer (`anyhow` in the source): a
recognized file whose contents fail to deserialize. -/
inductive PlanCacheError where
  | BadPlanFile
deriving DecidableEq

/-- Source `Path::extension()`: the substring after the last `.`, or `None` when
the name has no `.`.  (Rust additionally treats a leading-dot-only name as
having no extension; such names are not recognized cache files either way.) -/
def pathExtension (path : List Char) : Option (List Char) :=
  if '.' ∈ path then some ((path.reverse.takeWhile (fun c => c ≠ '.')).reverse)
  else none

/-- The recognized cache-file extension, `json-zip`. -/
def jsonZipExt : List Char := ['j', 's', 'o', 'n', '-', 'z', 'i', 'p']

/-- Source `load_cached_encoding_plan`: open + decompress + deserialize one file;
fails unless the contents are a serialized `CachedEncodingPlan`. -/
def load_cached_encoding_plan (entry : DirEntry) : Except PlanCacheError CachedEncodingPlan :=
  match entry.contents with
  | .planFile cached_plan => .ok cached_plan
  | .otherBytes _ => .error .BadPlanFile

/-- Source `load_cached_encoding_plans(dir)`: keep the entries that are files with
extension `json-zip`, then deserialize each (first error aborts the load). -/
def load_cached_encoding_plans (dir : List DirEntry) : Except PlanCacheError (List CachedEncodingPlan) :=
  collectExcept load_cached_encoding_plan
    (dir.filter (fun p => p.is_file && (pathExtension p.path == some jsonZipExt)))

/-- Source `load_encoding_plans(dir)`: insert every loaded plan into a fresh map
keyed by its stored `source_symbol_count`. -/
def load_encoding_plans (dir : List DirEntry) : Except PlanCacheError PlanCache :=
  match load_cached_encoding_plans dir with
  | .error e => .error e
  | .ok cached_plans =>
    .ok (cached_plans.foldl
      (fun hashmap cached_plan => insertPlan hashmap cached_plan.source_symbol_count cached_plan.plan)
      ([] : List (Nat × SourceBlockEncodingPlan)))

/-- The file name `format!("plan_{}.json-zip", source_symbol_count)`. -/
def planFileName (source_symbol_count : Nat) : List Char :=
  ['p', 'l', 'a', 'n', '_'] ++ Nat.toDigits 10 source_symbol_count ++ '.' :: jsonZipExt

/-- Source `save_encoding_plan(dir, cached_plan)`: create (or overwrite) the file
named after the plan's symbol count with its compressed serialization.  The
model returns the written directory entry. -/
def save_encoding_plan (cached_plan : CachedEncodingPlan) : DirEntry :=
  ⟨planFileName cached_plan.source_symbol_count, true, .planFile cached_plan⟩

/-- Source `save_encoding_plans(dir, plans)`: one `save_encoding_plan` per map
entry.  The model returns the list of written directory entries. -/
def save_encoding_plans (plans : PlanCache) : List DirEntry :=
  (plans.map (fun kv => CachedEncodingPlan.mk kv.1 kv.2)).map save_encoding_plan

/-! ## Concrete instances used to witness the theorems -/

/-- A `BlockInfo` for one 8-byte, one-symbol block with a chosen id. -/
def sampleBlockInfo (id : Nat) : BlockInfo :=
  ⟨8, 8, ObjectTransmissionInformation.new 8 8 1 1 8, id⟩

/-- A full repair packet for `sampleBlockInfo id` (enough on its own to
decode that block). -/
def samplePacket (id : Nat) : EncodedBlock :=
  ⟨id, ⟨0, List.replicate 8 0⟩⟩

/-- The `BlockEncoder` that `BlockEncoder::new(0, 512, [1,2,3], None)`
constructs. -/
def sampleBlockEncoder : BlockEncoder :=
  ⟨ObjectTransmissionInformation.new 512 512 1 1 8,
   [1, 2, 3] ++ List.replicate 509 0, 3, 0, 512, SourceBlockEncodingPlan.generate 1⟩

/-- The `RaptorQEncoder` that `RaptorQEncoder::new(512, [1,2,3], None)`
constructs. -/
def sampleEncoder : RaptorQEncoder := ⟨[sampleBlockEncoder]⟩

/-- The `RaptorQDecoder` built from `sampleEncoder.get_block_info_vec`. -/
def sampleDecoder : RaptorQDecoder :=
  ⟨[(⟨⟨3, 512, ObjectTransmissionInformation.new 512 512 1 1 8, 0⟩⟩, [])]⟩

/-- A two-block decoder state in which block 0 has enough packets and block 1
has none (so block 1 is the failing block). -/
def sampleStateBlockOneShort : RaptorQDecoder :=
  ⟨[(⟨sampleBlockInfo 0⟩, [samplePacket 0]), (⟨sampleBlockInfo 1⟩, [])]⟩

/-- One maximal chunk at `packet_size = 512`: `MAX_SYMBOLS_IN_BLOCK * 512`
zero bytes (already a multiple of the packet size, so padding is the
identity on it). -/
def bigChunk : List Nat := List.replicate (MAX_SYMBOLS_IN_BLOCK * 512) 0

/-- The `BlockEncoder` that `BlockEncoder::new(id, 512, bigChunk, None)`
constructs. -/
def bigEncoder (id : Nat) : BlockEncoder :=
  ⟨ObjectTransmissionInformation.new (MAX_SYMBOLS_IN_BLOCK * 512) 512 1 1 ALIGNMENT,
   bigChunk, MAX_SYMBOLS_IN_BLOCK * 512, id, 512,
   SourceBlockEncodingPlan.generate MAX_SYMBOLS_IN_BLOCK⟩

/-- The block encoder vector of `RaptorQEncoder::new(512, bigPayload, None)`:
`2 ^ 32 + 1` encoders whose `u32` block ids wrap, so ids `0` and `2 ^ 32`
collide at `0`. -/
def bigEncoders : List BlockEncoder :=
  (List.range (2 ^ 32 + 1)).map (fun i => bigEncoder (i % 2 ^ 32))

/-- A payload of exactly `2 ^ 32 + 1` maximal chunks at `packet_size = 512`
(about 1.2 * 10^17 zero bytes, within Rust's `isize::MAX`). -/
def bigPayload : List Nat :=
  List.replicate ((2 ^ 32 + 1) * (MAX_SYMBOLS_IN_BLOCK * 512)) 0

/-! ## Lemmas: `collectExcept` -/

/-- Source `collectExcept` succeeds with `ys` exactly when `f` succeeds pointwise. -/
theorem collectExcept_ok_iff {f : α → Except ε β} {l : List α} {ys : List β} :
    collectExcept f l = .ok ys ↔ List.Forall₂ (fun x y => f x = .ok y) l ys := by
  induction l generalizing ys with
  | nil =>
    simp only [collectExcept]
    constructor
    · rintro h
      cases ys with
      | nil => exact List.Forall₂.nil
      | cons y ys => simp at h
    · rintro h
      cases h
      rfl
  | cons x xs ih =>
    simp only [collectExcept]
    constructor
    · intro h
      cases hx : f x with
      | error e => rw [hx] at h; simp at h
      | ok y =>
        rw [hx] at h
        cases hxs : collectExcept f xs with
        | error e => rw [hxs] at h; simp at h
        | ok ys' =>
          rw [hxs] at h
          cases h
          exact List.Forall₂.cons hx (ih.mp hxs)
    · intro h
      cases h with
      | cons hx hxs =>
        rw [hx, ih.mpr hxs]

/-- Pointwise success gives `collectExcept f l = .ok (l.map g)`. -/
theorem collectExcept_map {f : α → Except ε β} {g : α → β} {l : List α}
    (h : ∀ x ∈ l, f x = .ok (g x)) : collectExcept f l = .ok (l.map g) := by
  induction l with
  | nil => rfl
  | cons x xs ih =>
    simp only [collectExcept, h x (List.mem_cons_self x xs), List.map_cons]
    rw [ih (fun a ha => h a (List.mem_cons_of_mem x ha))]

/-- Source `collectExcept` can only return an error raised by some element. -/
theorem collectExcept_ne_error {f : α → Except ε β} {l : List α} {e : ε}
    (h : ∀ x ∈ l, f x ≠ .error e) : collectExcept f l ≠ .error e := by
  induction l with
  | nil => simp [collectExcept]
  | cons x xs ih =>
    simp only [collectExcept]
    cases hx : f x with
    | error e' =>
      intro hcontra
      cases hcontra
      exact h x (List.mem_cons_self x xs) hx
    | ok y =>
      cases hxs : collectExcept f xs with
      | error e' =>
        intro hcontra
        cases hcontra
        exact ih (fun a ha => h a (List.mem_cons_of_mem x ha)) hxs
      | ok ys => simp

/-- First-error propagation: if every element before position `i` succeeds
and position `i` fails with `e`, the collected result is `.error e`. -/
theorem collectExcept_error_at {f : α → Except ε β} {l : List α} {e : ε} :
    ∀ (i : Nat) (hi : i < l.length),
      (∀ j (hj : j < l.length), j < i → (f (l.get ⟨j, hj⟩)).isOk = true) →
      f (l.get ⟨i, hi⟩) = .error e →
      collectExcept f l = .error e := by
  induction l with
  | nil => intro i hi; simp at hi
  | cons x xs ih =>
    intro i hi hpre hfail
    cases i with
    | zero =>
      simp only [List.get] at hfail
      simp [collectExcept, hfail]
    | succ i' =>
      have hx : (f x).isOk = true := hpre 0 (by simp) (Nat.succ_pos i')
      cases hfx : f x with
      | error e' => rw [hfx] at hx; simp [Except.isOk, Except.toBool] at hx
      | ok y =>
        simp only [collectExcept, hfx]
        have hrec : collectExcept f xs = .error e := by
          refine ih i' (by simpa using hi) ?_ ?_
          · intro j hj hji
            exact hpre (j + 1) (by simpa using hj) (Nat.succ_lt_succ hji)
          · simpa using hfail
        rw [hrec]

/-- If every error `f` can raise on `l` is `e` and some element does fail,
the collected result is exactly `.error e`. -/
theorem collectExcept_error_of_mem {f : α → Except ε β} {l : List α} {e : ε}
    (huniq : ∀ x ∈ l, ∀ e', f x = .error e' → e' = e) :
    ∀ x₀ ∈ l, f x₀ = .error e → collectExcept f l = .error e := by
  induction l with
  | nil => intro x₀ h; simp at h
  | cons x xs ih =>
    intro x₀ hmem hfail
    simp only [collectExcept]
    cases hfx : f x with
    | error e' =>
      rw [huniq x (List.mem_cons_self x xs) e' hfx]
    | ok y =>
      have hx₀xs : x₀ ∈ xs := by
        rcases List.mem_cons.mp hmem with h | h
        · subst h; rw [hfx] at hfail; simp at hfail
        · exact h
      rw [ih (fun a ha => huniq a (List.mem_cons_of_mem x ha)) x₀ hx₀xs hfail]

/-! ## Lemmas: `listModify`, `chunksList`, `padData` -/

/-- Source `listModify` preserves the length. -/
theorem length_listModify (f : α → α) (i : Nat) (l : List α) :
    (listModify f i l).length = l.length := by
  induction l generalizing i with
  | nil => cases i <;> rfl
  | cons x xs ih =>
    cases i with
    | zero => rfl
    | succ i' => simp only [listModify, List.length_cons, ih]

/-- Source `listModify` applies `f` at the modified index. -/
theorem get_listModify_eq (f : α → α) (i : Nat) (l : List α)
    (h : i < (listModify f i l).length) (h' : i < l.length) :
    (listModify f i l).get ⟨i, h⟩ = f (l.get ⟨i, h'⟩) := by
  induction l generalizing i with
  | nil => simp at h'
  | cons x xs ih =>
    cases i with
    | zero => rfl
    | succ i' => exact ih i' (by simpa [length_listModify] using h') (by simpa using h')

/-- Source `listModify` leaves other indices unchanged. -/
theorem get_listModify_ne (f : α → α) (j i : Nat) (l : List α)
    (h : i < (listModify f j l).length) (h' : i < l.length) (hne : i ≠ j) :
    (listModify f j l).get ⟨i, h⟩ = l.get ⟨i, h'⟩ := by
  induction l generalizing i j with
  | nil => simp at h'
  | cons x xs ih =>
    cases j with
    | zero =>
      cases i with
      | zero => exact absurd rfl hne
      | succ i' => rfl
    | succ j' =>
      cases i with
      | zero => rfl
      | succ i' =>
        exact ih j' i' (by simpa [length_listModify] using h') (by simpa using h')
          (fun hc => hne (by omega))

/-- Concatenating the chunks of `slice::chunks(n)` restores the slice. -/
theorem chunksList_flatten {α : Type _} {n : Nat} (hn : 0 < n) (l : List α) :
    (chunksList n l).flatten = l := by
  have haux : ∀ (fuel : Nat) (l : List α), l.length ≤ fuel → (chunksList n l).flatten = l := by
    intro fuel
    induction fuel with
    | zero =>
      intro l hl
      have : l = [] := List.length_eq_zero.mp (Nat.le_zero.mp hl)
      subst this
      simp [chunksList]
    | succ m ih =>
      intro l hl
      match l with
      | [] => simp [chunksList]
      | x :: xs =>
        rw [chunksList]
        rw [dif_neg (Nat.pos_iff_ne_zero.mp hn)]
        rw [List.flatten_cons]
        rw [ih ((x :: xs).drop n) (by simp only [List.length_drop, List.length_cons]; simp at hl; omega)]
        exact List.take_append_drop n (x :: xs)
  exact haux l.length l (Nat.le_refl _)

/-- Every chunk of `slice::chunks(n)` is nonempty and at most `n` long. -/
theorem chunksList_mem {α : Type _} {n : Nat} (hn : 0 < n) {l : List α} {c : List α}
    (hc : c ∈ chunksList n l) : c ≠ [] ∧ c.length ≤ n := by
  have haux : ∀ (fuel : Nat) (l : List α), l.length ≤ fuel →
      ∀ c ∈ chunksList n l, c ≠ [] ∧ c.length ≤ n := by
    intro fuel
    induction fuel with
    | zero =>
      intro l hl c hc
      have : l = [] := List.length_eq_zero.mp (Nat.le_zero.mp hl)
      subst this
      simp [chunksList] at hc
    | succ m ih =>
      intro l hl c hc
      match l with
      | [] => simp [chunksList] at hc
      | x :: xs =>
        rw [chunksList, dif_neg (Nat.pos_iff_ne_zero.mp hn)] at hc
        rcases List.mem_cons.mp hc with h | h
        · subst h
          refine ⟨List.ne_nil_of_length_pos ?_, List.length_take_le n (x :: xs)⟩
          simp only [List.length_take]
          exact lt_min hn (by simp)
        · exact ih ((x :: xs).drop n)
            (by simp only [List.length_drop, List.length_cons]; simp at hl; omega) c h
  exact haux l.length l (Nat.le_refl _) c hc

/-- Source `padData` pads to a multiple of the packet size. -/
theorem padData_length_mod (hps : 0 < packet_size) (data : List Nat) :
    (padData packet_size data).length % packet_size = 0 := by
  unfold padData
  by_cases h : data.length % packet_size > 0
  · rw [if_pos h]
    simp only [List.length_append, List.length_replicate]
    have hdm := Nat.div_add_mod data.length packet_size
    have hlt : data.length % packet_size < packet_size := Nat.mod_lt _ hps
    have : data.length + (packet_size - data.length % packet_size)
        = packet_size * (data.length / packet_size + 1) := by
      rw [Nat.mul_add, Nat.mul_one]
      omega
    rw [this, Nat.mul_mod_right]
  · rw [if_neg h]
    omega

/-- Source `padData` never shrinks the data. -/
theorem padData_length_ge (packet_size : Nat) (data : List Nat) :
    data.length ≤ (padData packet_size data).length := by
  unfold padData
  by_cases h : data.length % packet_size > 0
  · rw [if_pos h]; simp
  · rw [if_neg h]

/-- Source `padData` pads by strictly less than one packet. -/
theorem padData_length_lt (hps : 0 < packet_size) (data : List Nat) :
    (padData packet_size data).length < data.length + packet_size := by
  unfold padData
  by_cases h : data.length % packet_size > 0
  · rw [if_pos h]
    simp only [List.length_append, List.length_replicate]
    omega
  · rw [if_neg h]
    omega

/-- The padded buffer starts with the original data. -/
theorem padData_take (packet_size : Nat) (data : List Nat) :
    (padData packet_size data).take data.length = data := by
  unfold padData
  by_cases h : data.length % packet_size > 0
  · rw [if_pos h]
    exact List.take_left data _
  · rw [if_neg h]
    exact List.take_length data

/-- The padded buffer is the original data followed by zero bytes. -/
theorem padData_eq_append (packet_size : Nat) (data : List Nat) :
    padData packet_size data
      = data ++ List.replicate ((padData packet_size data).length - data.length) 0 := by
  unfold padData
  by_cases h : data.length % packet_size > 0
  · rw [if_pos h]
    simp
  · rw [if_neg h]
    simp

/-- Padding keeps the buffer within any whole-packet bound that held for
the data. -/
theorem padData_length_le (hps : 0 < packet_size) {data : List Nat} {k : Nat}
    (hle : data.length ≤ k * packet_size) :
    (padData packet_size data).length ≤ k * packet_size := by
  unfold padData
  by_cases h : data.length % packet_size > 0
  · rw [if_pos h]
    simp only [List.length_append, List.length_replicate]
    have hdm := Nat.div_add_mod data.length packet_size
    have hlt : data.length % packet_size < packet_size := Nat.mod_lt _ hps
    have hq : data.length / packet_size + 1 ≤ k := by
      by_contra hcon
      push_neg at hcon
      have hck : k ≤ data.length / packet_size := by omega
      have h5 : k * packet_size ≤ data.length / packet_size * packet_size :=
        Nat.mul_le_mul hck (Nat.le_refl _)
      have h6 : data.length / packet_size * packet_size ≤ data.length :=
        Nat.div_mul_le_self _ _
      have h7 : data.length = k * packet_size :=
        Nat.le_antisymm hle (Nat.le_trans h5 h6)
      rw [h7, Nat.mul_mod_left] at h
      omega
    have heq : data.length + (packet_size - data.length % packet_size)
        = packet_size * (data.length / packet_size + 1) := by
      rw [Nat.mul_add, Nat.mul_one]
      omega
    rw [heq, Nat.mul_comm]
    exact Nat.mul_le_mul hq (Nat.le_refl _)
  · rw [if_neg h]
    exact hle

/-- A nonempty chunk pads to at least one whole packet. -/
theorem padData_div_pos (hps : 0 < packet_size) {data : List Nat} (hne : data ≠ []) :
    0 < (padData packet_size data).length / packet_size := by
  have h1 : 0 < data.length := List.length_pos.mpr hne
  have h2 := padData_length_ge packet_size data
  have h3 := padData_length_mod hps data
  have h4 : packet_size ≤ (padData packet_size data).length := by
    by_contra hcon
    push_neg at hcon
    have := Nat.mod_eq_of_lt hcon
    omega
  exact (Nat.one_le_div_iff hps).mpr h4

/-! ## Lemmas: block encoding -/

/-- Source `add_packets` adds exactly the given packets. -/
theorem length_add_packets (blocks : List EncodedBlock) (packets : List EncodingPacket) (block_id : Nat) :
    (BlockEncoder.add_packets blocks packets block_id).length = blocks.length + packets.length := by
  simp [BlockEncoder.add_packets]

/-- Membership in `add_packets` output. -/
theorem mem_add_packets {blocks : List EncodedBlock} {packets : List EncodingPacket} {block_id : Nat}
    {b : EncodedBlock} (hb : b ∈ BlockEncoder.add_packets blocks packets block_id) :
    b ∈ blocks ∨ (b.block_id = block_id ∧ b.data ∈ packets) := by
  rcases List.mem_append.mp hb with h | h
  · exact Or.inl h
  · right
    rcases List.mem_map.mp h with ⟨p, hp, hpb⟩
    subst hpb
    exact ⟨rfl, List.mem_reverse.mp hp⟩

/-- Source `repair_packets` returns `count` packets. -/
theorem length_repair_packets (e : SourceBlockEncoder) (start_id count : Nat) :
    (e.repair_packets start_id count).length = count := by
  simp [SourceBlockEncoder.repair_packets]

/-- Every packet of `repair_packets` carries the encoder's source block. -/
theorem mem_repair_packets {e : SourceBlockEncoder} {start_id count : Nat}
    {p : EncodingPacket} (hp : p ∈ e.repair_packets start_id count) :
    p.source_block = e.source_block := by
  rcases List.mem_map.mp hp with ⟨i, _, hip⟩
  subst hip
  rfl

/-- Source `encode_data` always emits exactly `data.len() / packet_size` packets,
provided the symbol count is within the RaptorQ block limit (so the `as u32`
casts do not truncate). -/
theorem encode_data_length (config : ObjectTransmissionInformation)
    (plan : SourceBlockEncodingPlan) (data : List Nat) (packet_size block_id start_index : Nat)
    (hn : data.length / packet_size ≤ RAPTORQ_MAX_SYMBOLS_IN_BLOCK) :
    (BlockEncoder.encode_data config plan data packet_size block_id start_index).length
      = data.length / packet_size := by
  unfold BlockEncoder.encode_data
  have h56 : RAPTORQ_MAX_SYMBOLS_IN_BLOCK < 2 ^ 32 := by decide
  have hcle : min (RAPTORQ_ENCODING_SYMBOL_ID_MAX - start_index) (data.length / packet_size)
      ≤ data.length / packet_size := Nat.min_le_right _ _
  have hcmod : min (RAPTORQ_ENCODING_SYMBOL_ID_MAX - start_index) (data.length / packet_size) % 2 ^ 32
      = min (RAPTORQ_ENCODING_SYMBOL_ID_MAX - start_index) (data.length / packet_size) :=
    Nat.mod_eq_of_lt (by omega)
  have hdmod : (data.length / packet_size
        - min (RAPTORQ_ENCODING_SYMBOL_ID_MAX - start_index) (data.length / packet_size)) % 2 ^ 32
      = data.length / packet_size
        - min (RAPTORQ_ENCODING_SYMBOL_ID_MAX - start_index) (data.length / packet_size) :=
    Nat.mod_eq_of_lt (by omega)
  by_cases h : min (RAPTORQ_ENCODING_SYMBOL_ID_MAX - start_index) (data.length / packet_size)
      < data.length / packet_size
  · rw [if_pos h]
    simp only [length_add_packets, length_repair_packets, List.length_nil, hcmod, hdmod]
    omega
  · rw [if_neg h]
    simp only [length_add_packets, length_repair_packets, List.length_nil, hcmod]
    omega

/-- Every packet `encode_data` emits is tagged with the given `block_id` and
derives from the given data. -/
theorem encode_data_mem {config : ObjectTransmissionInformation}
    {plan : SourceBlockEncodingPlan} {data : List Nat} {packet_size block_id start_index : Nat}
    {b : EncodedBlock}
    (hb : b ∈ BlockEncoder.encode_data config plan data packet_size block_id start_index) :
    b.block_id = block_id ∧ b.data.source_block = data := by
  unfold BlockEncoder.encode_data at hb
  by_cases h : min (RAPTORQ_ENCODING_SYMBOL_ID_MAX - start_index) (data.length / packet_size)
      < data.length / packet_size
  · rw [if_pos h] at hb
    rcases mem_add_packets hb with h1 | h1
    · rcases mem_add_packets h1 with h2 | h2
      · simp at h2
      · exact ⟨h2.1, mem_repair_packets h2.2⟩
    · exact ⟨h1.1, mem_repair_packets h1.2⟩
  · rw [if_neg h] at hb
    rcases mem_add_packets hb with h1 | h1
    · simp at h1
    · exact ⟨h1.1, mem_repair_packets h1.2⟩

/-- Source `encode_data` is the fold of `add_packets` over the `repair_packets`
requests listed by `encode_data_requests`. -/
theorem encode_data_eq_requests (config : ObjectTransmissionInformation)
    (plan : SourceBlockEncodingPlan) (data : List Nat) (packet_size block_id start_index : Nat) :
    BlockEncoder.encode_data config plan data packet_size block_id start_index
      = (BlockEncoder.encode_data_requests (data.length / packet_size) start_index).foldl
          (fun blocks r => BlockEncoder.add_packets blocks
            ((SourceBlockEncoder.with_encoding_plan2 0 config data plan).repair_packets r.1 r.2)
            block_id) [] := by
  unfold BlockEncoder.encode_data BlockEncoder.encode_data_requests
  by_cases h : min (RAPTORQ_ENCODING_SYMBOL_ID_MAX - start_index) (data.length / packet_size)
      < data.length / packet_size
  · rw [if_pos h, if_pos h]
    rfl
  · rw [if_neg h, if_neg h]
    rfl

/-- Inversion of a successful `BlockEncoder::new`. -/
theorem BlockEncoder.new_ok {block_id packet_size : Nat} {data : List Nat}
    {cache : Option PlanCache} {e : BlockEncoder}
    (h : BlockEncoder.new block_id packet_size data cache = .ok e) :
    packet_size % ALIGNMENT = 0 ∧ MIN_PACKET_SIZE ≤ packet_size
    ∧ e.config = ObjectTransmissionInformation.new (padData packet_size data).length packet_size 1 1 ALIGNMENT
    ∧ e.data = padData packet_size data
    ∧ e.payload_size = data.length
    ∧ e.block_id = block_id
    ∧ e.packet_size = packet_size := by
  unfold BlockEncoder.new at h
  by_cases h1 : packet_size % ALIGNMENT ≠ 0 ∨ packet_size < MIN_PACKET_SIZE
  · rw [if_pos h1] at h
    exact absurd h (by simp)
  · rw [if_neg h1] at h
    push_neg at h1
    by_cases h2 : (padData packet_size data).length / packet_size % 2 ^ 16 > MAX_SYMBOLS_IN_BLOCK
    · rw [if_pos h2] at h
      exact absurd h (by simp)
    · rw [if_neg h2] at h
      cases h
      exact ⟨h1.1, h1.2, rfl, rfl, rfl, rfl, rfl⟩

/-! ## Lemmas: block decoding -/

/-- The modeled FEC reconstruction succeeds on any nonempty batch of packets
that all derive from one source block of the configured length, once the
packet count reaches the recovery threshold. -/
theorem sourceBlockDecode_ok {config : ObjectTransmissionInformation} {block_length : Nat}
    {packets : List EncodingPacket} {D : List Nat}
    (hne : packets ≠ [])
    (hall : ∀ q ∈ packets, q.source_block = D)
    (hlen : D.length = block_length)
    (hcount : block_length / config.symbol_size ≤ packets.length) :
    sourceBlockDecode config block_length packets = some D := by
  match packets with
  | [] => exact absurd rfl hne
  | p :: rest =>
    have hp : p.source_block = D := hall p (List.mem_cons_self p rest)
    have hcond : (((p :: rest).all fun q => q.source_block == p.source_block)
        && (p.source_block.length == block_length)
        && decide (block_length / config.symbol_size ≤ (p :: rest).length)) = true := by
      refine (Bool.and_eq_true _ _).mpr ⟨(Bool.and_eq_true _ _).mpr ⟨?_, ?_⟩, ?_⟩
      · refine List.all_eq_true.mpr ?_
        intro q hq
        exact beq_iff_eq.mpr ((hall q hq).trans hp.symm)
      · exact beq_iff_eq.mpr (by rw [hp, hlen])
      · exact decide_eq_true hcount
    show (if (((p :: rest).all fun q => q.source_block == p.source_block)
        && (p.source_block.length == block_length)
        && decide (block_length / config.symbol_size ≤ (p :: rest).length)) = true
      then some p.source_block else none) = some D
    rw [if_pos hcond, hp]

/-- Source `extract_packets` succeeds and strips the tags when every packet carries
the decoder's block id. -/
theorem extract_packets_ok {blocks : List EncodedBlock} {block_id : Nat}
    (hall : ∀ b ∈ blocks, b.block_id = block_id) :
    BlockDecoder.extract_packets blocks block_id = .ok (blocks.map (fun b => b.data)) := by
  refine collectExcept_map ?_
  intro b hb
  unfold BlockDecoder.extract_packet
  rw [if_neg]
  simp [hall b hb]

/-- Source `extract_packets` fails with `BadBlockId` as soon as any packet carries a
foreign block id. -/
theorem extract_packets_error {blocks : List EncodedBlock} {block_id : Nat}
    {b : EncodedBlock} (hb : b ∈ blocks) (hne : b.block_id ≠ block_id) :
    BlockDecoder.extract_packets blocks block_id = .error .BadBlockId := by
  refine collectExcept_error_of_mem ?_ b hb ?_
  · intro x _ e' hx
    unfold BlockDecoder.extract_packet at hx
    by_cases h : x.block_id ≠ block_id
    · rw [if_pos h] at hx
      cases hx
      rfl
    · rw [if_neg h] at hx
      cases hx
  · unfold BlockDecoder.extract_packet
    rw [if_pos hne]

/-- Source `decode_data` recovers and truncates the source block when fed enough
correctly-tagged packets of that block. -/
theorem decode_data_ok {block_info : BlockInfo} {blocks : List EncodedBlock} {D : List Nat}
    (hne : blocks ≠ [])
    (hall : ∀ b ∈ blocks, b.block_id = block_info.block_id ∧ b.data.source_block = D)
    (hlen : D.length = block_info.padded_size)
    (hcount : block_info.padded_size / block_info.config.symbol_size ≤ blocks.length) :
    BlockDecoder.decode_data block_info blocks = .ok (D.take block_info.payload_size) := by
  have hdec : sourceBlockDecode block_info.config block_info.padded_size
      (blocks.map (fun b => b.data)) = some D := by
    refine sourceBlockDecode_ok (by simpa using hne) ?_ hlen (by simpa using hcount)
    intro q hq
    rcases List.mem_map.mp hq with ⟨b, hb, hbq⟩
    subst hbq
    exact (hall b hb).2
  unfold BlockDecoder.decode_data
  rw [extract_packets_ok (fun b hb => (hall b hb).1)]
  show (match sourceBlockDecode block_info.config block_info.padded_size
      (blocks.map (fun b => b.data)) with
    | none => Except.error RaptorQDecoderError.RaptorQDecodeFailed
    | some decoded_data => Except.ok (decoded_data.take block_info.payload_size))
    = Except.ok (D.take block_info.payload_size)
  rw [hdec]

/-- Inversion of a successful `RaptorQDecoder::new`: the id list is exactly
`0..n` and each decoder is paired with an empty buffer, in order. -/
theorem RaptorQDecoder.new_valid {block_info_vec : List BlockInfo} {d : RaptorQDecoder}
    (h : RaptorQDecoder.new block_info_vec = .ok d) :
    block_info_vec.map (fun bi => bi.block_id) = List.range block_info_vec.length
    ∧ d.block_decoder_data = block_info_vec.map (fun bi => (⟨bi⟩, [])) := by
  unfold RaptorQDecoder.new at h
  by_cases hids : block_info_vec.map (fun block_info => block_info.block_id)
      ≠ List.range block_info_vec.length
  · rw [if_pos hids] at h
    exact absurd h (by simp)
  · rw [if_neg hids] at h
    push_neg at hids
    have hcoll : collectExcept (fun block_info => BlockDecoder.new block_info) block_info_vec
        = .ok (block_info_vec.map (fun bi => (⟨bi⟩ : BlockDecoder))) :=
      collectExcept_map (fun _ _ => rfl)
    rw [hcoll] at h
    cases h
    exact ⟨hids, by rw [List.map_map]; rfl⟩

/-- One `consume_block` step: the vector length and the decoders are
untouched; the buffer at the packet's block id (when in range) gains exactly
that packet; the returned count is 1 in range, 0 out of range. -/
theorem consume_block_spec (d : RaptorQDecoder) (b : EncodedBlock) :
    ((d.consume_block b).1.block_decoder_data.length = d.block_decoder_data.length)
    ∧ (∀ i (h1 : i < (d.consume_block b).1.block_decoder_data.length)
        (h2 : i < d.block_decoder_data.length),
        ((d.consume_block b).1.block_decoder_data.get ⟨i, h1⟩).1
          = (d.block_decoder_data.get ⟨i, h2⟩).1)
    ∧ (∀ i (h1 : i < (d.consume_block b).1.block_decoder_data.length)
        (h2 : i < d.block_decoder_data.length),
        ((d.consume_block b).1.block_decoder_data.get ⟨i, h1⟩).2
          = (d.block_decoder_data.get ⟨i, h2⟩).2 ++ (if b.block_id = i then [b] else []))
    ∧ ((d.consume_block b).2 = if b.block_id < d.block_decoder_data.length then 1 else 0) := by
  unfold RaptorQDecoder.consume_block
  by_cases hin : b.block_id < d.block_decoder_data.length
  · rw [if_pos hin]
    refine ⟨length_listModify _ _ _, ?_, ?_, by rw [if_pos hin]⟩
    · intro i h1 h2
      by_cases hieq : i = b.block_id
      · subst hieq
        rw [get_listModify_eq _ _ _ _ h2]
      · rw [get_listModify_ne _ _ _ _ _ h2 hieq]
    · intro i h1 h2
      by_cases hieq : i = b.block_id
      · subst hieq
        rw [get_listModify_eq _ _ _ _ h2, if_pos rfl]
      · rw [get_listModify_ne _ _ _ _ _ h2 hieq, if_neg (fun hc => hieq hc.symm)]
        simp
  · rw [if_neg hin]
    refine ⟨rfl, fun i h1 h2 => rfl, ?_, by rw [if_neg hin]⟩
    intro i h1 h2
    rw [if_neg]
    · simp
    · intro hc
      subst hc
      exact hin h2

/-- Source `consume_blocks` in full: decoders and length unchanged, each in-range
buffer grows by exactly the packets addressed to it (in arrival order), and
the returned count is the number of in-range packets. -/
theorem consume_blocks_spec (blocks : List EncodedBlock) : ∀ (d : RaptorQDecoder),
    ((d.consume_blocks blocks).1.block_decoder_data.length = d.block_decoder_data.length)
    ∧ (∀ i (h1 : i < (d.consume_blocks blocks).1.block_decoder_data.length)
        (h2 : i < d.block_decoder_data.length),
        ((d.consume_blocks blocks).1.block_decoder_data.get ⟨i, h1⟩).1
          = (d.block_decoder_data.get ⟨i, h2⟩).1)
    ∧ (∀ i (h1 : i < (d.consume_blocks blocks).1.block_decoder_data.length)
        (h2 : i < d.block_decoder_data.length),
        ((d.consume_blocks blocks).1.block_decoder_data.get ⟨i, h1⟩).2
          = (d.block_decoder_data.get ⟨i, h2⟩).2
            ++ blocks.filter (fun b => b.block_id == i))
    ∧ ((d.consume_blocks blocks).2
        = (blocks.filter (fun b => decide (b.block_id < d.block_decoder_data.length))).length) := by
  induction blocks with
  | nil =>
    intro d
    exact ⟨rfl, fun i h1 h2 => rfl, fun i h1 h2 => by simp [RaptorQDecoder.consume_blocks], by simp [RaptorQDecoder.consume_blocks]⟩
  | cons b bs ih =>
    intro d
    obtain ⟨hslen, hsfst, hssnd, hscnt⟩ := consume_block_spec d b
    obtain ⟨hlen, hfst, hsnd, hcnt⟩ := ih (d.consume_block b).1
    refine ⟨hlen.trans hslen, ?_, ?_, ?_⟩
    · intro i h1 h2
      have h2b : i < (d.consume_block b).1.block_decoder_data.length := by omega
      have h1b : i < ((d.consume_block b).1.consume_blocks bs).1.block_decoder_data.length := h1
      exact (hfst i h1b h2b).trans (hsfst i h2b h2)
    · intro i h1 h2
      have h2b : i < (d.consume_block b).1.block_decoder_data.length := by omega
      have h1b : i < ((d.consume_block b).1.consume_blocks bs).1.block_decoder_data.length := h1
      show (((d.consume_block b).1.consume_blocks bs).1.block_decoder_data.get ⟨i, h1b⟩).2
        = (d.block_decoder_data.get ⟨i, h2⟩).2 ++ (b :: bs).filter (fun b => b.block_id == i)
      rw [hsnd i h1b h2b, hssnd i h2b h2, List.filter_cons]
      by_cases hbi : b.block_id = i
      · simp [hbi]
      · simp [hbi]
    · show (d.consume_block b).2 + ((d.consume_block b).1.consume_blocks bs).2
        = ((b :: bs).filter (fun b => decide (b.block_id < d.block_decoder_data.length))).length
      rw [hscnt, hcnt, hslen, List.filter_cons]
      by_cases hbi : b.block_id < d.block_decoder_data.length
      · rw [if_pos hbi, if_pos (by simp [hbi])]
        simp only [List.length_cons]
        omega
      · rw [if_neg hbi, if_neg (by simp [hbi])]
        omega

/-- Source `RaptorQDecoder::decode_blocks` errors exactly when the per-block
collection errors. -/
theorem RaptorQDecoder.decode_blocks_error_iff (d : RaptorQDecoder) (e : RaptorQDecoderError) :
    d.decode_blocks = .error e
      ↔ collectExcept (fun x => BlockDecoder.decode_blocks x.1 x.2) d.block_decoder_data
          = .error e := by
  unfold RaptorQDecoder.decode_blocks
  cases hcoll : collectExcept (fun x => BlockDecoder.decode_blocks x.1 x.2) d.block_decoder_data with
  | error err => simp
  | ok v => simp

/-- Source `List.enum` paired with positional access. -/
theorem get_enum_pair (l : List α) (i : Nat) (h : i < l.enum.length) (h' : i < l.length) :
    l.enum.get ⟨i, h⟩ = (i, l.get ⟨i, h'⟩) := by
  rw [List.get_eq_getElem, List.get_eq_getElem]
  exact List.getElem_enum l i h

/-- Filtering a concatenation of lists whose `j`-th list holds only packets
of block id `k + j` selects exactly the list of the filtered id. -/
theorem flatten_filter_eq_get (i : Nat) :
    ∀ (L : List (List EncodedBlock)) (k t : Nat), i = k + t → ∀ (hlt : t < L.length),
      (∀ j (hj : j < L.length), ∀ b ∈ L.get ⟨j, hj⟩, b.block_id = k + j) →
      L.flatten.filter (fun b => b.block_id == i) = L.get ⟨t, hlt⟩ := by
  intro L
  induction L with
  | nil => intro k t _ hlt; simp at hlt
  | cons c rest ih =>
    intro k t hi hlt hids
    rw [List.flatten_cons, List.filter_append]
    cases t with
    | zero =>
      have hc : c.filter (fun b => b.block_id == i) = c := by
        refine List.filter_eq_self.mpr ?_
        intro b hb
        have := hids 0 (by simp) b hb
        simp [this, hi]
      have hrest : rest.flatten.filter (fun b => b.block_id == i) = [] := by
        refine List.filter_eq_nil_iff.mpr ?_
        intro b hb
        rcases List.mem_flatten.mp hb with ⟨l, hl, hbl⟩
        rcases List.mem_iff_get.mp hl with ⟨⟨j, hj⟩, hlj⟩
        have hbg : b ∈ rest.get ⟨j, hj⟩ := by rw [hlj]; exact hbl
        have hid : b.block_id = k + (j + 1) :=
          hids (j + 1) (by simpa using Nat.succ_lt_succ hj) b hbg
        simp [hid, hi]
      rw [hc, hrest, List.append_nil]
      rfl
    | succ t' =>
      have hc : c.filter (fun b => b.block_id == i) = [] := by
        refine List.filter_eq_nil_iff.mpr ?_
        intro b hb
        have := hids 0 (by simp) b hb
        simp [this, hi]
      rw [hc, List.nil_append]
      have hrec := ih (k + 1) t' (by omega) (by simpa using hlt)
        (fun j hj b hb => by
          have := hids (j + 1) (by simpa using Nat.succ_lt_succ hj) b (by simpa [List.get] using hb)
          omega)
      rw [hrec]
      rfl

/-! ## Lemmas: plan cache -/

/-- Source `lookupPlan` after `insertPlan`. -/
theorem lookupPlan_insertPlan (m : List (Nat × SourceBlockEncodingPlan))
    (k : Nat) (v : SourceBlockEncodingPlan) (k' : Nat) :
    lookupPlan (insertPlan m k v) k' = if k = k' then some v else lookupPlan m k' := by
  induction m with
  | nil => simp [insertPlan, lookupPlan]
  | cons kv rest ih =>
    by_cases h1 : kv.1 = k
    · simp only [insertPlan, if_pos h1, lookupPlan]
      by_cases h2 : k = k'
      · rw [if_pos h2, if_pos h2]
      · rw [if_neg h2, if_neg h2, if_neg (by rw [h1]; exact h2)]
    · simp only [insertPlan, if_neg h1, lookupPlan]
      by_cases h2 : kv.1 = k'
      · rw [if_pos h2, if_neg (by rw [← h2]; exact fun hc => h1 hc.symm), if_pos h2]
      · rw [if_neg h2, if_neg h2, ih]

/-- A key outside the list looks up to `none`. -/
theorem lookupPlan_eq_none (m : List (Nat × SourceBlockEncodingPlan)) (k : Nat)
    (hk : k ∉ m.map Prod.fst) : lookupPlan m k = none := by
  induction m with
  | nil => rfl
  | cons kv rest ih =>
    simp only [List.map_cons, List.mem_cons] at hk
    push_neg at hk
    show (if kv.1 = k then some kv.2 else lookupPlan rest k) = none
    rw [if_neg (fun hc : kv.1 = k => hk.1 hc.symm)]
    exact ih hk.2

/-- Re-inserting a map with unique keys into an empty map leaves lookups
unchanged. -/
theorem lookupPlan_foldl_insert (plans : List (Nat × SourceBlockEncodingPlan)) :
    ∀ (m : List (Nat × SourceBlockEncodingPlan)) (k : Nat), (plans.map Prod.fst).Nodup →
      lookupPlan ((plans.map (fun kv => CachedEncodingPlan.mk kv.1 kv.2)).foldl
          (fun hashmap c => insertPlan hashmap c.source_symbol_count c.plan) m) k
        = match lookupPlan plans k with
          | some v => some v
          | none => lookupPlan m k := by
  induction plans with
  | nil => intro m k _; simp [lookupPlan]
  | cons kv rest ih =>
    intro m k hnd
    simp only [List.map_cons, List.nodup_cons] at hnd
    simp only [List.map_cons, List.foldl_cons]
    rw [ih (insertPlan m kv.1 kv.2) k hnd.2]
    simp only [lookupPlan]
    by_cases h1 : kv.1 = k
    · have hnone : lookupPlan rest k = none := by
        refine lookupPlan_eq_none rest k ?_
        rw [← h1]
        exact hnd.1
      rw [hnone, if_pos h1, lookupPlan_insertPlan, if_pos h1]
    · rw [if_neg h1]
      cases hr : lookupPlan rest k with
      | some v => rfl
      | none => rw [lookupPlan_insertPlan, if_neg h1]

/-- Source `takeWhile` stops exactly at the first failing element. -/
theorem takeWhile_append_fails {p : Char → Bool} :
    ∀ (l : List Char) (x : Char) (r : List Char), (∀ c ∈ l, p c = true) → p x = false →
      (l ++ x :: r).takeWhile p = l := by
  intro l
  induction l with
  | nil =>
    intro x r _ hx
    simp [List.takeWhile_cons, hx]
  | cons c cs ih =>
    intro x r hall hx
    have hc : p c = true := hall c (List.mem_cons_self c cs)
    simp only [List.cons_append, List.takeWhile_cons, hc, if_true]
    rw [ih x r (fun a ha => hall a (List.mem_cons_of_mem c ha)) hx]

/-- The extension of a name built as `A ++ "." ++ E` with a dot-free `E`. -/
theorem pathExtension_append (A E : List Char) (hE : '.' ∉ E) :
    pathExtension (A ++ '.' :: E) = some E := by
  unfold pathExtension
  rw [if_pos (by simp)]
  congr 1
  rw [List.reverse_append, List.reverse_cons, List.append_assoc, List.singleton_append]
  rw [takeWhile_append_fails E.reverse '.' A.reverse
    (fun c hc => by
      simp only [List.mem_reverse] at hc
      simp only [decide_eq_true_eq]
      exact fun heq => hE (heq ▸ hc))
    (by simp)]
  exact List.reverse_reverse E

/-- Saved plan files always carry the recognized `json-zip` extension. -/
theorem pathExtension_planFileName (k : Nat) :
    pathExtension (planFileName k) = some jsonZipExt := by
  unfold planFileName
  exact pathExtension_append (['p', 'l', 'a', 'n', '_'] ++ Nat.toDigits 10 k) jsonZipExt
    (by decide)

/-! ## Lemmas: multi-block encoder construction -/

/-- Inversion of a successful `RaptorQEncoder::new`: the block encoders are
the successful `BlockEncoder::new` results of the enumerated chunks, in
order. -/
theorem RaptorQEncoder.new_spec {packet_size : Nat} {data : List Nat}
    {cache cache' : Option PlanCache} {e : RaptorQEncoder}
    (h : RaptorQEncoder.new packet_size data cache = .ok (e, cache')) :
    List.Forall₂ (fun ic enc => BlockEncoder.new (ic.1 % 2 ^ 32) packet_size ic.2 cache = .ok enc)
      (chunksList (MAX_SYMBOLS_IN_BLOCK * packet_size) data).enum e.block_encoders := by
  cases hcoll : collectExcept
      (fun ic => BlockEncoder.new (ic.1 % 2 ^ 32) packet_size ic.2 cache)
      (chunksList (MAX_SYMBOLS_IN_BLOCK * packet_size) data).enum with
  | error err =>
    simp only [RaptorQEncoder.new, hcoll] at h
    exact absurd h (by simp)
  | ok block_encoders =>
    simp only [RaptorQEncoder.new, hcoll] at h
    cases cache with
    | some c =>
      simp only at h
      cases h
      exact collectExcept_ok_iff.mp hcoll
    | none =>
      simp only at h
      cases h
      exact collectExcept_ok_iff.mp hcoll

/-- Correctly-tagged packets can never produce `BadBlockId` from
`decode_data`. -/
theorem decode_data_ne_BadBlockId {block_info : BlockInfo} {blocks : List EncodedBlock}
    (hall : ∀ b ∈ blocks, b.block_id = block_info.block_id) :
    BlockDecoder.decode_data block_info blocks ≠ .error .BadBlockId := by
  unfold BlockDecoder.decode_data
  rw [extract_packets_ok hall]
  cases hres : sourceBlockDecode block_info.config block_info.padded_size
      (blocks.map (fun b => b.data)) with
  | none => simp [hres]
  | some decoded_data => simp [hres]

/-- Loading a directory containing exactly the saved plan files recovers the
saved `CachedEncodingPlan`s in order. -/
theorem load_cached_save (plans : List (Nat × SourceBlockEncodingPlan)) :
    load_cached_encoding_plans (save_encoding_plans plans)
      = .ok (plans.map (fun kv => CachedEncodingPlan.mk kv.1 kv.2)) := by
  unfold load_cached_encoding_plans save_encoding_plans
  induction plans with
  | nil => rfl
  | cons kv rest ih =>
    simp only [List.map_cons]
    rw [List.filter_cons, if_pos (by simp [save_encoding_plan, pathExtension_planFileName])]
    simp only [collectExcept]
    have hhead : load_cached_encoding_plan (save_encoding_plan ⟨kv.1, kv.2⟩)
        = .ok (⟨kv.1, kv.2⟩ : CachedEncodingPlan) := rfl
    rw [hhead, ih]

/-! ## Claim theorems -/

/-- C6.  For every successfully constructed `BlockEncoder`,
`get_block_info` reports `payload_size` equal to the input chunk's length and
`padded_size` equal to the least multiple of `packet_size` at least
`payload_size` (`padded_size % packet_size == 0`,
`payload_size ≤ padded_size < payload_size + packet_size`), and the padded
buffer extends the chunk only with zero bytes. -/
theorem c6_block_info_invariants (block_id packet_size : Nat) (data : List Nat)
    (cache : Option PlanCache) (e : BlockEncoder)
    (hps16 : packet_size < 2 ^ 16)
    (h : BlockEncoder.new block_id packet_size data cache = .ok e) :
    e.get_block_info.payload_size = data.length
    ∧ e.get_block_info.padded_size % packet_size = 0
    ∧ data.length ≤ e.get_block_info.padded_size
    ∧ e.get_block_info.padded_size < data.length + packet_size
    ∧ e.data = data ++ List.replicate (e.get_block_info.padded_size - data.length) 0 := by
  obtain ⟨h8, hmin, hconf, hdata, hpay, hid, hpsz⟩ := BlockEncoder.new_ok h
  have hps : 0 < packet_size := by
    have : (512 : Nat) ≤ packet_size := hmin
    omega
  refine ⟨hpay, ?_, ?_, ?_, ?_⟩
  · show e.data.length % packet_size = 0
    rw [hdata]
    exact padData_length_mod hps data
  · show data.length ≤ e.data.length
    rw [hdata]
    exact padData_length_ge _ data
  · show e.data.length < data.length + packet_size
    rw [hdata]
    exact padData_length_lt hps data
  · show e.data = data ++ List.replicate (e.data.length - data.length) 0
    rw [hdata]
    exact padData_eq_append _ data

set_option maxRecDepth 100000 in
/-- Witness for `c6_block_info_invariants` at `BlockEncoder::new(0, 512,
[1,2,3], None)`. -/
theorem c6_witness :
    sampleBlockEncoder.get_block_info.payload_size = ([1, 2, 3] : List Nat).length
    ∧ sampleBlockEncoder.get_block_info.padded_size % 512 = 0
    ∧ ([1, 2, 3] : List Nat).length ≤ sampleBlockEncoder.get_block_info.padded_size
    ∧ sampleBlockEncoder.get_block_info.padded_size < ([1, 2, 3] : List Nat).length + 512
    ∧ sampleBlockEncoder.data
        = [1, 2, 3] ++ List.replicate
            (sampleBlockEncoder.get_block_info.padded_size - ([1, 2, 3] : List Nat).length) 0 :=
  c6_block_info_invariants 0 512 [1, 2, 3] none sampleBlockEncoder (by decide) (by decide)

/-- C7.  Feeding a `BlockDecoder` any packet sequence containing a packet
with a foreign `block_id` fails that decode with `BadBlockId`; and decoding
never mutates the decoder: every decode call, on this decoder, is the pure
function `decode_data` of its stored `BlockInfo` and the packets, so the
same decoder can be retried afterwards with an enlarged packet set. -/
theorem c7_mismatched_packet_rejection (dec : BlockDecoder) (packets : List EncodedBlock)
    (b : EncodedBlock) (hb : b ∈ packets) (hne : b.block_id ≠ dec.block_info.block_id) :
    dec.decode_blocks packets = .error .BadBlockId
    ∧ ∀ packets2 : List EncodedBlock,
        dec.decode_blocks packets2 = BlockDecoder.decode_data dec.block_info packets2 := by
  constructor
  · unfold BlockDecoder.decode_blocks BlockDecoder.decode_data
    rw [extract_packets_error hb hne]
  · intro packets2
    rfl

/-- Witness for `c7_mismatched_packet_rejection`: a block-1 packet fed to the
block-0 decoder. -/
theorem c7_witness :
    (⟨sampleBlockInfo 0⟩ : BlockDecoder).decode_blocks [samplePacket 1] = .error .BadBlockId
    ∧ ∀ packets2 : List EncodedBlock,
        (⟨sampleBlockInfo 0⟩ : BlockDecoder).decode_blocks packets2
          = BlockDecoder.decode_data (sampleBlockInfo 0) packets2 :=
  c7_mismatched_packet_rejection ⟨sampleBlockInfo 0⟩ [samplePacket 1] (samplePacket 1)
    (by decide) (by decide)

/-- C8 (amended).  A `packet_size` that is not a multiple of `ALIGNMENT`
or is below `MIN_PACKET_SIZE` makes `BlockEncoder::new` fail with
`InvalidPacketSize` for every chunk and block id; `RaptorQEncoder::new`
likewise fails for every *non-empty* payload (and nonzero `packet_size` —
`slice::chunks` panics at zero).  An empty payload yields no chunks, so
`RaptorQEncoder::new` succeeds vacuously (see the counterexample). -/
theorem c8_invalid_packet_size :
    (∀ (block_id packet_size : Nat) (data : List Nat) (cache : Option PlanCache),
      packet_size % ALIGNMENT ≠ 0 ∨ packet_size < MIN_PACKET_SIZE →
      BlockEncoder.new block_id packet_size data cache = .error .InvalidPacketSize)
    ∧ (∀ (packet_size : Nat) (data : List Nat) (cache : Option PlanCache),
      0 < packet_size →
      packet_size % ALIGNMENT ≠ 0 ∨ packet_size < MIN_PACKET_SIZE →
      data ≠ [] →
      RaptorQEncoder.new packet_size data cache = .error .InvalidPacketSize) := by
  have hp1 : ∀ (block_id packet_size : Nat) (data : List Nat) (cache : Option PlanCache),
      packet_size % ALIGNMENT ≠ 0 ∨ packet_size < MIN_PACKET_SIZE →
      BlockEncoder.new block_id packet_size data cache = .error .InvalidPacketSize := by
    intro block_id packet_size data cache hbad
    unfold BlockEncoder.new
    rw [if_pos hbad]
  refine ⟨hp1, ?_⟩
  intro packet_size data cache hpos hbad hne
  have hB : MAX_SYMBOLS_IN_BLOCK * packet_size ≠ 0 := by
    have h1 : (0 : Nat) < MAX_SYMBOLS_IN_BLOCK := by decide
    have := Nat.mul_pos h1 hpos
    omega
  cases data with
  | nil => exact absurd rfl hne
  | cons x xs =>
    simp only [RaptorQEncoder.new]
    rw [chunksList, dif_neg hB, List.enum_cons]
    have hc0 := hp1 ((0 : Nat) % 2 ^ 32) packet_size
      ((x :: xs).take (MAX_SYMBOLS_IN_BLOCK * packet_size)) cache hbad
    simp only [collectExcept, hc0]

/-- Counterexample to **C8** as stated: `packet_size = 8` is invalid
(below `MIN_PACKET_SIZE`), yet `RaptorQEncoder::new(8, [], None)` succeeds —
the empty payload produces no chunks, so no `BlockEncoder` is ever
constructed and no error is raised. -/
theorem c8_counterexample :
    ((8 : Nat) % ALIGNMENT = 0 ∧ 8 < MIN_PACKET_SIZE)
    ∧ RaptorQEncoder.new 8 [] none = .ok (⟨[]⟩, none) := by
  refine ⟨by decide, ?_⟩
  simp only [RaptorQEncoder.new, chunksList, List.enum_nil, collectExcept]

/-- Witness for `c8_invalid_packet_size`: `packet_size = 1337` is not a
multiple of `ALIGNMENT`, so `BlockEncoder::new` rejects it, and so does
`RaptorQEncoder::new` on the non-empty payload `[7]`. -/
theorem c8_witness :
    BlockEncoder.new 0 1337 [7] none = .error .InvalidPacketSize
    ∧ RaptorQEncoder.new 1337 [7] none = .error .InvalidPacketSize :=
  ⟨c8_invalid_packet_size.1 0 1337 [7] none (by decide),
   c8_invalid_packet_size.2 1337 [7] none (by decide) (by decide) (by decide)⟩

/-- C3 (amended).  For every `packet_size` passing the packet-size check
and every chunk whose padded length divided by `packet_size`, *truncated to
16 bits* (the `as u16` cast in the source), exceeds `MAX_SYMBOLS_IN_BLOCK`,
`BlockEncoder::new` returns `DataSizeTooLarge`.  (Without the truncation the
statement is false: see the counterexample.) -/
theorem c3_oversize_rejection (block_id packet_size : Nat) (data : List Nat)
    (cache : Option PlanCache)
    (_hps16 : packet_size < 2 ^ 16)
    (h8 : packet_size % ALIGNMENT = 0) (hmin : MIN_PACKET_SIZE ≤ packet_size)
    (hover : (padData packet_size data).length / packet_size % 2 ^ 16 > MAX_SYMBOLS_IN_BLOCK) :
    BlockEncoder.new block_id packet_size data cache = .error .DataSizeTooLarge := by
  unfold BlockEncoder.new
  rw [if_neg (by simp [h8, Nat.not_lt.mpr hmin])]
  rw [if_pos hover]

/-- Witness for `c3_oversize_rejection`: a 30 720 000-byte chunk at
`packet_size = 512` needs 60 000 symbols, above the 56 403 cap. -/
theorem c3_witness :
    BlockEncoder.new 0 512 (List.replicate (512 * 60000) 0) none
      = .error .DataSizeTooLarge :=
  c3_oversize_rejection 0 512 (List.replicate (512 * 60000) 0) none (by decide) (by decide)
    (by decide)
    (by
      have h : padData 512 (List.replicate (512 * 60000) 0)
          = List.replicate (512 * 60000) 0 := by
        unfold padData
        rw [if_neg]
        simp only [List.length_replicate]
        decide
      rw [h, List.length_replicate]
      decide)

/-- Counterexample to **C3** as stated: at `packet_size = 512`, a chunk of
`2^25` bytes needs `2^16` symbols — more than `MAX_SYMBOLS_IN_BLOCK` — but
the `as u16` cast truncates `2^16` to `0`, the oversize check passes, and
`BlockEncoder::new` succeeds instead of returning `DataSizeTooLarge`. -/
theorem c3_counterexample :
    (padData 512 (List.replicate (2 ^ 25) 0)).length / 512 > MAX_SYMBOLS_IN_BLOCK
    ∧ (BlockEncoder.new 0 512 (List.replicate (2 ^ 25) 0) none).isOk = true := by
  have hlen : (padData 512 (List.replicate (2 ^ 25) 0)).length = 2 ^ 25 := by
    unfold padData
    simp only [List.length_replicate]
    rw [if_neg (by decide)]
    simp only [List.length_replicate]
  constructor
  · rw [hlen]
    decide
  · simp only [BlockEncoder.new]
    rw [if_neg (by decide), hlen]
    rw [if_neg (by decide)]
    rfl

/-- C2 is the claim's stated behavior; the code contradicts it (code bug).
Evaluation at the failing input: the decoder accepts the ascending complete
`block_info_vec` but rejects the same set permuted, with `BadBlockInfo` —
the validation compares the raw `block_id` list against `0..n` without the
sort its own comment announces. -/
theorem c2_block_info_order_sensitivity :
    (RaptorQDecoder.new [sampleBlockInfo 0, sampleBlockInfo 1]).isOk = true
    ∧ RaptorQDecoder.new [sampleBlockInfo 1, sampleBlockInfo 0] = .error .BadBlockInfo := by
  exact ⟨by decide, by decide⟩

/-- C5 (amended).  `RaptorQDecoder::decode_blocks` propagates the error
of the first failing block in `block_id` (vector) order: it identifies the
failure *kind*, but the error value does not carry the failing `block_id`
(see the counterexample). -/
theorem c5_first_error_propagation (d : RaptorQDecoder) (i : Nat)
    (hi : i < d.block_decoder_data.length) (e : RaptorQDecoderError)
    (hpre : ∀ j (hj : j < d.block_decoder_data.length), j < i →
      (BlockDecoder.decode_blocks (d.block_decoder_data.get ⟨j, hj⟩).1
        (d.block_decoder_data.get ⟨j, hj⟩).2).isOk = true)
    (hfail : BlockDecoder.decode_blocks (d.block_decoder_data.get ⟨i, hi⟩).1
      (d.block_decoder_data.get ⟨i, hi⟩).2 = .error e) :
    d.decode_blocks = .error e := by
  rw [RaptorQDecoder.decode_blocks_error_iff]
  exact collectExcept_error_at i hi hpre hfail

/-- Witness for `c5_first_error_propagation`: in a two-block decoder where
block 0 decodes and block 1 lacks packets, `decode_blocks` returns block 1's
`RaptorQDecodeFailed`. -/
theorem c5_witness :
    sampleStateBlockOneShort.decode_blocks = .error .RaptorQDecodeFailed :=
  c5_first_error_propagation sampleStateBlockOneShort 1 (by decide) .RaptorQDecodeFailed
    (by decide) (by decide)

/-- Counterexample to **C5** as stated: the error does not identify the
failing block.  Two decoder runs built over the same `block_info_vec` — one
in which block 0 is the failing block (its buffer is empty while block 1's
decode succeeds) and one in which block 1 is the failing block — return the
*same* error value `RaptorQDecodeFailed` (`RaptorQDecoderError` carries no
`block_id`), so no caller can recover the failing block id from it. -/
theorem c5_counterexample :
    ((RaptorQDecoder.new [sampleBlockInfo 0, sampleBlockInfo 1]).map
        (fun d => ((d.consume_blocks [samplePacket 1]).1).decode_blocks)
      = .ok (.error .RaptorQDecodeFailed))
    ∧ ((RaptorQDecoder.new [sampleBlockInfo 0, sampleBlockInfo 1]).map
        (fun d => ((d.consume_blocks [samplePacket 0]).1).decode_blocks)
      = .ok (.error .RaptorQDecodeFailed))
    ∧ BlockDecoder.decode_blocks ⟨sampleBlockInfo 0⟩ [] = .error .RaptorQDecodeFailed
    ∧ BlockDecoder.decode_blocks ⟨sampleBlockInfo 1⟩ [samplePacket 1]
        = .ok (List.replicate 8 0)
    ∧ BlockDecoder.decode_blocks ⟨sampleBlockInfo 0⟩ [samplePacket 0]
        = .ok (List.replicate 8 0)
    ∧ BlockDecoder.decode_blocks ⟨sampleBlockInfo 1⟩ [] = .error .RaptorQDecodeFailed := by
  refine ⟨?_, ?_, ?_, ?_, ?_, ?_⟩ <;> decide

/-- C10.  Invariant of `RaptorQDecoder` kept by every operation: after
construction and any sequence of `consume_blocks` calls, buffer `i` holds
only packets with `block_id = i`; each `consume_blocks` call appends the
in-range packets to the buffer of their block id and counts exactly them
(out-of-range packets are dropped and counted 0); consequently
`decode_blocks` can never fail with `BadBlockId` when every packet entered
through `consume_blocks`. -/
theorem c10_consume_routing_invariant (block_info_vec : List BlockInfo)
    (d0 : RaptorQDecoder) (seqs : List (List EncodedBlock)) (d : RaptorQDecoder)
    (hnew : RaptorQDecoder.new block_info_vec = .ok d0)
    (hd : d = seqs.foldl (fun s blocks => (s.consume_blocks blocks).1) d0) :
    (d.block_decoder_data.length = block_info_vec.length)
    ∧ (∀ i (hi : i < d.block_decoder_data.length),
        ∀ b ∈ (d.block_decoder_data.get ⟨i, hi⟩).2, b.block_id = i)
    ∧ (∀ blocks, (d.consume_blocks blocks).2
        = (blocks.filter (fun b => decide (b.block_id < d.block_decoder_data.length))).length)
    ∧ (∀ blocks i (hi : i < (d.consume_blocks blocks).1.block_decoder_data.length)
        (hi' : i < d.block_decoder_data.length),
        ((d.consume_blocks blocks).1.block_decoder_data.get ⟨i, hi⟩).2
          = (d.block_decoder_data.get ⟨i, hi'⟩).2
            ++ blocks.filter (fun b => b.block_id == i))
    ∧ d.decode_blocks ≠ .error .BadBlockId := by
  obtain ⟨hids, hd0⟩ := RaptorQDecoder.new_valid hnew
  have hd0len : d0.block_decoder_data.length = block_info_vec.length := by
    rw [hd0, List.length_map]
  have hbid0 : ∀ i (hi : i < d0.block_decoder_data.length),
      (d0.block_decoder_data.get ⟨i, hi⟩).1.block_info.block_id = i := by
    intro i hi
    have hi' : i < block_info_vec.length := by omega
    have h1 : (d0.block_decoder_data.get ⟨i, hi⟩).1.block_info
        = block_info_vec.get ⟨i, hi'⟩ := by
      rw [List.get_of_eq hd0 ⟨i, hi⟩]
      rw [List.get_eq_getElem, List.getElem_map, List.get_eq_getElem]
    rw [h1]
    have h2 : (block_info_vec.map (fun bi => bi.block_id)).get
        ⟨i, by rw [List.length_map]; exact hi'⟩ = i := by
      rw [List.get_of_eq hids ⟨i, by rw [List.length_map]; exact hi'⟩]
      rw [List.get_eq_getElem]
      simp
    rw [List.get_eq_getElem, List.getElem_map] at h2
    rw [List.get_eq_getElem]
    exact h2
  have hbuf0 : ∀ i (hi : i < d0.block_decoder_data.length),
      ∀ b ∈ (d0.block_decoder_data.get ⟨i, hi⟩).2, b.block_id = i := by
    intro i hi b hb
    rw [List.get_of_eq hd0 ⟨i, hi⟩, List.get_eq_getElem, List.getElem_map] at hb
    simp at hb
  have hmain : ∀ (ss : List (List EncodedBlock)) (dd : RaptorQDecoder),
      dd.block_decoder_data.length = block_info_vec.length →
      (∀ i (hi : i < dd.block_decoder_data.length),
        (dd.block_decoder_data.get ⟨i, hi⟩).1.block_info.block_id = i) →
      (∀ i (hi : i < dd.block_decoder_data.length),
        ∀ b ∈ (dd.block_decoder_data.get ⟨i, hi⟩).2, b.block_id = i) →
      ((ss.foldl (fun s blocks => (s.consume_blocks blocks).1) dd).block_decoder_data.length
          = block_info_vec.length)
      ∧ (∀ i (hi : i < (ss.foldl (fun s blocks => (s.consume_blocks blocks).1)
            dd).block_decoder_data.length),
          ((ss.foldl (fun s blocks => (s.consume_blocks blocks).1)
            dd).block_decoder_data.get ⟨i, hi⟩).1.block_info.block_id = i)
      ∧ (∀ i (hi : i < (ss.foldl (fun s blocks => (s.consume_blocks blocks).1)
            dd).block_decoder_data.length),
          ∀ b ∈ ((ss.foldl (fun s blocks => (s.consume_blocks blocks).1)
            dd).block_decoder_data.get ⟨i, hi⟩).2, b.block_id = i) := by
    intro ss
    induction ss with
    | nil => exact fun dd h1 h2 h3 => ⟨h1, h2, h3⟩
    | cons blocks rest ih =>
      intro dd h1 h2 h3
      obtain ⟨hclen, hcfst, hcsnd, _⟩ := consume_blocks_spec blocks dd
      refine ih (dd.consume_blocks blocks).1 (hclen.trans h1) ?_ ?_
      · intro i hi
        have hi' : i < dd.block_decoder_data.length := by omega
        rw [hcfst i hi hi']
        exact h2 i hi'
      · intro i hi b hb
        have hi' : i < dd.block_decoder_data.length := by omega
        rw [hcsnd i hi hi'] at hb
        rcases List.mem_append.mp hb with h | h
        · exact h3 i hi' b h
        · have := (List.mem_filter.mp h).2
          exact beq_iff_eq.mp this
  obtain ⟨hlen, hbid, hbuf⟩ := hmain seqs d0 hd0len hbid0 hbuf0
  rw [← hd] at hlen hbid hbuf
  refine ⟨hlen, hbuf, ?_, ?_, ?_⟩
  · intro blocks
    exact (consume_blocks_spec blocks d).2.2.2
  · intro blocks i hi hi'
    exact (consume_blocks_spec blocks d).2.2.1 i hi hi'
  · intro hcontra
    rw [RaptorQDecoder.decode_blocks_error_iff] at hcontra
    refine collectExcept_ne_error ?_ hcontra
    intro x hx
    rcases List.mem_iff_get.mp hx with ⟨⟨i, hi⟩, hgx⟩
    have hxid : x.1.block_info.block_id = i := by rw [← hgx]; exact hbid i hi
    have hxbuf : ∀ b ∈ x.2, b.block_id = i := by rw [← hgx]; exact hbuf i hi
    show BlockDecoder.decode_blocks x.1 x.2 ≠ .error .BadBlockId
    unfold BlockDecoder.decode_blocks
    refine decode_data_ne_BadBlockId ?_
    intro b hb
    rw [hxid]
    exact hxbuf b hb

/-- Witness for `c10_consume_routing_invariant`: a two-block decoder fed one
in-range and one out-of-range packet never reports `BadBlockId`. -/
theorem c10_witness :
    (⟨[(⟨sampleBlockInfo 0⟩, [samplePacket 0]), (⟨sampleBlockInfo 1⟩, [])]⟩
      : RaptorQDecoder).decode_blocks ≠ .error .BadBlockId :=
  (c10_consume_routing_invariant [sampleBlockInfo 0, sampleBlockInfo 1]
    ⟨[(⟨sampleBlockInfo 0⟩, []), (⟨sampleBlockInfo 1⟩, [])]⟩
    [[samplePacket 0, samplePacket 5]]
    ⟨[(⟨sampleBlockInfo 0⟩, [samplePacket 0]), (⟨sampleBlockInfo 1⟩, [])]⟩
    (by decide) (by decide)).2.2.2.2

/-- C4 (amended).  For every successfully constructed `BlockEncoder`
whose symbol count `num_symbols = padded_size / packet_size` is at most
`MAX_SYMBOLS_IN_BLOCK` (the 16-bit truncation in the size check otherwise
admits larger encoders — see the counterexample), and every start identifier
in `[0, ENCODING_SYMBOL_ID_SPACE_MAX)`: `generate_encoded_blocks` returns
exactly `num_symbols` packets, all tagged with the encoder's `block_id`;
`encode_data` is the fold of the `repair_packets` requests listed by
`encode_data_requests`; every request satisfies
`start_id + count ≤ ENCODING_SYMBOL_ID_SPACE_MAX`; and the request list
splits into `[start, MAX)` and `[0, remainder)` exactly when
`start + num_symbols` would exceed the identifier space. -/
theorem c4_generate_packet_requests (block_id packet_size : Nat) (data : List Nat)
    (cache : Option PlanCache) (e : BlockEncoder) (start_index : Nat)
    (_henc : BlockEncoder.new block_id packet_size data cache = .ok e)
    (hs : start_index < RAPTORQ_ENCODING_SYMBOL_ID_MAX)
    (hn : e.data.length / e.packet_size ≤ MAX_SYMBOLS_IN_BLOCK) :
    ((e.generate_encoded_blocks start_index).length = e.data.length / e.packet_size)
    ∧ (∀ b ∈ e.generate_encoded_blocks start_index, b.block_id = e.block_id)
    ∧ (BlockEncoder.encode_data e.config e.encoding_plan e.data e.packet_size e.block_id
          start_index
        = (BlockEncoder.encode_data_requests (e.data.length / e.packet_size)
            start_index).foldl
            (fun blocks r => BlockEncoder.add_packets blocks
              ((SourceBlockEncoder.with_encoding_plan2 0 e.config e.data
                e.encoding_plan).repair_packets r.1 r.2) e.block_id) [])
    ∧ (∀ r ∈ BlockEncoder.encode_data_requests (e.data.length / e.packet_size) start_index,
        r.1 + r.2 ≤ RAPTORQ_ENCODING_SYMBOL_ID_MAX)
    ∧ (RAPTORQ_ENCODING_SYMBOL_ID_MAX < start_index + e.data.length / e.packet_size →
        BlockEncoder.encode_data_requests (e.data.length / e.packet_size) start_index
          = [(start_index, RAPTORQ_ENCODING_SYMBOL_ID_MAX - start_index),
             (0, e.data.length / e.packet_size
                  - (RAPTORQ_ENCODING_SYMBOL_ID_MAX - start_index))])
    ∧ (start_index + e.data.length / e.packet_size ≤ RAPTORQ_ENCODING_SYMBOL_ID_MAX →
        BlockEncoder.encode_data_requests (e.data.length / e.packet_size) start_index
          = [(start_index, e.data.length / e.packet_size)]) := by
  have hM : RAPTORQ_ENCODING_SYMBOL_ID_MAX = 16777216 := by decide
  have h32 : (2 : Nat) ^ 32 = 4294967296 := by decide
  have hmax : MAX_SYMBOLS_IN_BLOCK = 56403 := by decide
  rw [hmax] at hn
  rw [hM] at hs
  refine ⟨?_, ?_, encode_data_eq_requests _ _ _ _ _ _, ?_, ?_, ?_⟩
  · exact encode_data_length e.config e.encoding_plan e.data e.packet_size e.block_id
      start_index (by rw [show RAPTORQ_MAX_SYMBOLS_IN_BLOCK = 56403 from by decide]; exact hn)
  · intro b hb
    exact (encode_data_mem hb).1
  · intro r hr
    rw [hM]
    unfold BlockEncoder.encode_data_requests at hr
    rw [hM, h32] at hr
    have hsm : start_index % 4294967296 = start_index := Nat.mod_eq_of_lt (by omega)
    have hMsm : (16777216 - start_index) % 4294967296 = 16777216 - start_index :=
      Nat.mod_eq_of_lt (by omega)
    have hnm : e.data.length / e.packet_size % 4294967296
        = e.data.length / e.packet_size := Nat.mod_eq_of_lt (by omega)
    have hdm : (e.data.length / e.packet_size - (16777216 - start_index)) % 4294967296
        = e.data.length / e.packet_size - (16777216 - start_index) :=
      Nat.mod_eq_of_lt (by omega)
    have hzm : (e.data.length / e.packet_size - e.data.length / e.packet_size) % 4294967296
        = 0 := by simp
    rcases Nat.le_total (16777216 - start_index) (e.data.length / e.packet_size)
      with hle | hle
    · rw [min_eq_left hle] at hr
      split at hr
      · simp only [List.mem_cons, List.mem_singleton] at hr
        rcases hr with hr | hr | hr
        · subst hr; simp only [hsm, hMsm]; omega
        · subst hr; simp only [hdm]; omega
        · simp at hr
      · simp only [List.mem_singleton] at hr
        subst hr
        simp only [hsm, hMsm]
        omega
    · rw [min_eq_right hle] at hr
      split at hr
      · simp only [List.mem_cons, List.mem_singleton] at hr
        rcases hr with hr | hr | hr
        · subst hr; simp only [hsm, hnm]; omega
        · subst hr; simp only [hzm]; omega
        · simp at hr
      · simp only [List.mem_singleton] at hr
        subst hr
        simp only [hsm, hnm]
        omega
  · intro hover
    rw [hM] at hover ⊢
    unfold BlockEncoder.encode_data_requests
    rw [hM, h32]
    have e2 : min (16777216 - start_index) (e.data.length / e.packet_size)
        = 16777216 - start_index := min_eq_left (by omega)
    rw [e2]
    rw [if_pos (by omega)]
    have e1 : start_index % 4294967296 = start_index := by omega
    have e3 : (16777216 - start_index) % 4294967296 = 16777216 - start_index := by omega
    have e4 : (e.data.length / e.packet_size - (16777216 - start_index)) % 4294967296
        = e.data.length / e.packet_size - (16777216 - start_index) := by omega
    rw [e1, e3, e4]
  · intro hunder
    rw [hM] at hunder
    unfold BlockEncoder.encode_data_requests
    rw [hM, h32]
    have e2 : min (16777216 - start_index) (e.data.length / e.packet_size)
        = e.data.length / e.packet_size := min_eq_right (by omega)
    rw [e2]
    rw [if_neg (by omega)]
    have e1 : start_index % 4294967296 = start_index := Nat.mod_eq_of_lt (by omega)
    have e3 : e.data.length / e.packet_size % 4294967296
        = e.data.length / e.packet_size := Nat.mod_eq_of_lt (by omega)
    rw [e1, e3]

set_option maxRecDepth 100000 in
/-- Witness for `c4_generate_packet_requests` at the encoder over `[1,2,3]`
with `packet_size = 512` and random start 5. -/
theorem c4_witness :
    ((sampleBlockEncoder.generate_encoded_blocks 5).length
      = sampleBlockEncoder.data.length / sampleBlockEncoder.packet_size)
    ∧ (∀ r ∈ BlockEncoder.encode_data_requests
        (sampleBlockEncoder.data.length / sampleBlockEncoder.packet_size) 5,
        r.1 + r.2 ≤ RAPTORQ_ENCODING_SYMBOL_ID_MAX) := by
  have h := c4_generate_packet_requests 0 512 [1, 2, 3] none sampleBlockEncoder 5
    (by decide) (by decide) (by decide)
  exact ⟨h.1, h.2.2.2.1⟩

/-- Counterexample to **C4** as stated: through the 16-bit truncation in the
oversize check, `BlockEncoder::new(0, 512, [0; 2^34], None)` is successfully
constructed with `num_symbols = padded_size / packet_size = 2^25` (by
`BlockEncoder.new_ok`, the constructed encoder's `data` is exactly
`padData 512 [0; 2^34]` and its `packet_size` is 512); at random start 1 the
second `repair_packets` sub-request is `(0, 2^24 + 1)`, whose
`start_id + count = 2^24 + 1` exceeds
`ENCODING_SYMBOL_ID_SPACE_MAX = 2^24`. -/
theorem c4_counterexample :
    (BlockEncoder.new 0 512 (List.replicate (2 ^ 34) 0) none).isOk = true
    ∧ (padData 512 (List.replicate (2 ^ 34) 0)).length / 512 = 2 ^ 25
    ∧ BlockEncoder.encode_data_requests (2 ^ 25) 1
        = [(1, 2 ^ 24 - 1), (0, 2 ^ 24 + 1)]
    ∧ RAPTORQ_ENCODING_SYMBOL_ID_MAX < 0 + (2 ^ 24 + 1) := by
  have hpad : padData 512 (List.replicate (2 ^ 34) 0) = List.replicate (2 ^ 34) 0 := by
    unfold padData
    rw [if_neg]
    simp only [List.length_replicate]
    decide
  refine ⟨?_, ?_, ?_, by decide⟩
  · simp only [BlockEncoder.new, hpad, List.length_replicate]
    rw [if_neg (by decide), if_neg (by decide)]
    rfl
  · rw [hpad, List.length_replicate]
    norm_num
  · have hM : RAPTORQ_ENCODING_SYMBOL_ID_MAX = 16777216 := by decide
    unfold BlockEncoder.encode_data_requests
    rw [hM]
    norm_num

/-- C9.  `save_encoding_plans` writes exactly one file per map entry,
named deterministically by that entry's symbol count; loading the resulting
directory returns a functionally equivalent map (equal lookups for every
key, given the `HashMap` invariant of unique keys); and loading ignores
every directory entry that is not a file with the recognized `json-zip`
extension. -/
theorem c9_plan_cache_roundtrip (plans : List (Nat × SourceBlockEncodingPlan))
    (hnd : (plans.map Prod.fst).Nodup) :
    ((save_encoding_plans plans).length = plans.length)
    ∧ (∀ i (hi : i < (save_encoding_plans plans).length) (hi' : i < plans.length),
        ((save_encoding_plans plans).get ⟨i, hi⟩).path
          = planFileName (plans.get ⟨i, hi'⟩).1)
    ∧ (∃ m, load_encoding_plans (save_encoding_plans plans) = .ok m
        ∧ ∀ k, lookupPlan m k = lookupPlan plans k)
    ∧ (∀ junk : DirEntry,
        ¬(junk.is_file = true ∧ pathExtension junk.path = some jsonZipExt) →
        load_encoding_plans (save_encoding_plans plans ++ [junk])
          = load_encoding_plans (save_encoding_plans plans)) := by
  refine ⟨?_, ?_, ?_, ?_⟩
  · unfold save_encoding_plans
    simp
  · intro i hi hi'
    unfold save_encoding_plans
    rw [List.get_eq_getElem, List.getElem_map, List.getElem_map, List.get_eq_getElem]
    rfl
  · have hl : load_encoding_plans (save_encoding_plans plans)
        = .ok ((plans.map (fun kv => CachedEncodingPlan.mk kv.1 kv.2)).foldl
            (fun hashmap c => insertPlan hashmap c.source_symbol_count c.plan) []) := by
      unfold load_encoding_plans
      rw [load_cached_save]
    refine ⟨_, hl, ?_⟩
    intro k
    rw [lookupPlan_foldl_insert plans [] k hnd]
    cases hk : lookupPlan plans k with
    | some v => rfl
    | none => rfl
  · intro junk hjunk
    have hcond : (junk.is_file && (pathExtension junk.path == some jsonZipExt)) = false := by
      cases hf : junk.is_file with
      | false => simp
      | true =>
        have hne : ¬(pathExtension junk.path = some jsonZipExt) := fun he => hjunk ⟨hf, he⟩
        simp [hne]
    unfold load_encoding_plans load_cached_encoding_plans
    rw [List.filter_append]
    rw [show List.filter (fun p => p.is_file && (pathExtension p.path == some jsonZipExt)) [junk]
        = [] from by simp only [List.filter, hcond]]
    rw [List.append_nil]

/-- Witness for `c9_plan_cache_roundtrip` on a two-entry plan map. -/
theorem c9_witness :
    ((([(1, SourceBlockEncodingPlan.generate 1), (2, SourceBlockEncodingPlan.generate 2)]
        : List (Nat × SourceBlockEncodingPlan)).map Prod.fst).Nodup)
    ∧ (save_encoding_plans
        [(1, SourceBlockEncodingPlan.generate 1), (2, SourceBlockEncodingPlan.generate 2)]).length
        = ([(1, SourceBlockEncodingPlan.generate 1), (2, SourceBlockEncodingPlan.generate 2)]
            : List (Nat × SourceBlockEncodingPlan)).length :=
  ⟨by decide, (c9_plan_cache_roundtrip _ (by decide)).1⟩

/-- A nonempty slice no longer than the chunk size yields a single chunk. -/
theorem chunksList_eq_single {α : Type _} {n : Nat} {l : List α}
    (hne : l ≠ []) (hn : n ≠ 0) (hle : l.length ≤ n) :
    chunksList n l = [l] := by
  match l with
  | [] => exact absurd rfl hne
  | x :: xs =>
    rw [chunksList, dif_neg hn]
    rw [List.take_of_length_le hle, List.drop_eq_nil_of_le hle]
    simp [chunksList]

/-- Positional access through `List.map`, with separate bounds for the mapped
and the original list. -/
theorem get_map_at {α β : Type _} (f : α → β) (l : List α) (i : Nat)
    (h1 : i < (l.map f).length) (h2 : i < l.length) :
    (l.map f).get ⟨i, h1⟩ = f (l.get ⟨i, h2⟩) := by
  rw [List.get_eq_getElem, List.getElem_map, List.get_eq_getElem]

/-- Positional access into `get_block_info_vec`: entry `i` is the block info
of block encoder `i`. -/
theorem get_block_info_vec_get (e : RaptorQEncoder) (i : Nat)
    (h1 : i < e.get_block_info_vec.length) (h2 : i < e.block_encoders.length) :
    e.get_block_info_vec.get ⟨i, h1⟩ = (e.block_encoders.get ⟨i, h2⟩).get_block_info :=
  get_map_at (fun x : BlockEncoder => x.get_block_info) e.block_encoders i h1 h2

set_option maxHeartbeats 4000000 in
/-- C1 (amended).  Round trip: for every payload and valid `packet_size` (a
multiple of `ALIGNMENT`, at least `MIN_PACKET_SIZE`), whenever the decoder
can be constructed from `get_block_info_vec` at all — which, by the `i as
u32` wrap on chunk indices, excludes exactly the payloads of more than
`2 ^ 32` chunks whose duplicate block ids make `RaptorQDecoder::new` fail
(see the counterexample) — encoding the payload, feeding any shuffle of the
generated packets (any permutation of the concatenated per-block packet
lists, for any choice of the per-block random start identifiers) into that
decoder, and calling `decode_blocks` returns exactly the original payload —
including when the payload length is not a multiple of `packet_size`. -/
theorem c1_roundtrip (payload : List Nat) (packet_size : Nat) (cache : Option PlanCache)
    (e : RaptorQEncoder) (cache' : Option PlanCache) (start_indices : List Nat)
    (packets : List EncodedBlock) (d : RaptorQDecoder)
    ( _hps16 : packet_size < 2 ^ 16)
    ( _h8 : packet_size % ALIGNMENT = 0)
    (hmin : MIN_PACKET_SIZE ≤ packet_size)
    (henc : RaptorQEncoder.new packet_size payload cache = .ok (e, cache'))
    (hsl : start_indices.length = e.block_encoders.length)
    ( _hsmax : ∀ s ∈ start_indices, s < RAPTORQ_ENCODING_SYMBOL_ID_MAX)
    (hperm : packets.Perm (e.generate_encoded_blocks start_indices))
    (hdec : RaptorQDecoder.new e.get_block_info_vec = .ok d) :
    ((d.consume_blocks packets).1).decode_blocks = .ok payload := by
  clear _hsmax _hps16
  have hps : 0 < packet_size := by
    have h512 : (512 : Nat) ≤ packet_size := hmin
    omega
  have hMS : (0 : Nat) < MAX_SYMBOLS_IN_BLOCK := by decide
  have hB : 0 < MAX_SYMBOLS_IN_BLOCK * packet_size := Nat.mul_pos hMS hps
  obtain ⟨chunks, hchunksdef⟩ : ∃ c : List (List Nat),
      c = chunksList (MAX_SYMBOLS_IN_BLOCK * packet_size) payload := ⟨_, rfl⟩
  have hF := RaptorQEncoder.new_spec henc
  rw [← hchunksdef] at hF
  obtain ⟨hlenF, hgetF⟩ := List.forall₂_iff_get.mp hF
  have hchlen : chunks.enum.length = chunks.length := List.enum_length
  have hNlen : chunks.length = e.block_encoders.length := by rw [← hchlen, hlenF]
  have hEnc : ∀ i (hi : i < e.block_encoders.length) (hic : i < chunks.length),
      BlockEncoder.new (i % 2 ^ 32) packet_size (chunks.get ⟨i, hic⟩) cache
        = .ok (e.block_encoders.get ⟨i, hi⟩) := by
    intro i hi hic
    have h1 := hgetF i (by omega) hi
    rw [get_enum_pair chunks i (by omega) hic] at h1
    exact h1
  have hfields : ∀ i (hi : i < e.block_encoders.length) (hic : i < chunks.length),
      (e.block_encoders.get ⟨i, hi⟩).config
          = ObjectTransmissionInformation.new
              (padData packet_size (chunks.get ⟨i, hic⟩)).length packet_size 1 1 ALIGNMENT
      ∧ (e.block_encoders.get ⟨i, hi⟩).data = padData packet_size (chunks.get ⟨i, hic⟩)
      ∧ (e.block_encoders.get ⟨i, hi⟩).payload_size = (chunks.get ⟨i, hic⟩).length
      ∧ (e.block_encoders.get ⟨i, hi⟩).packet_size = packet_size := by
    intro i hi hic
    obtain ⟨_, _, hc, hdta, hp, _, hsz⟩ := BlockEncoder.new_ok (hEnc i hi hic)
    exact ⟨hc, hdta, hp, hsz⟩
  obtain ⟨hids, hdd⟩ := RaptorQDecoder.new_valid hdec
  have hinfolen : e.get_block_info_vec.length = e.block_encoders.length := by
    unfold RaptorQEncoder.get_block_info_vec
    rw [List.length_map]
  have hddlen : d.block_decoder_data.length = e.block_encoders.length := by
    rw [hdd, List.length_map, hinfolen]
  have hbid : ∀ i (hi : i < e.block_encoders.length),
      (e.block_encoders.get ⟨i, hi⟩).block_id = i := by
    intro i hi
    have hmi : i < (e.get_block_info_vec.map (fun bi => bi.block_id)).length := by
      rw [List.length_map, hinfolen]
      exact hi
    have hvi : i < e.get_block_info_vec.length := by
      rw [hinfolen]
      exact hi
    have h2 : (e.get_block_info_vec.map (fun bi => bi.block_id)).get ⟨i, hmi⟩ = i := by
      rw [List.get_of_eq hids ⟨i, hmi⟩]
      rw [List.get_eq_getElem]
      simp
    rw [get_map_at (fun bi => bi.block_id) e.get_block_info_vec i hmi hvi] at h2
    rw [get_block_info_vec_get e i hvi hi] at h2
    exact h2
  have hdpair : ∀ i (hi : i < d.block_decoder_data.length)
      (hie : i < e.block_encoders.length),
      d.block_decoder_data.get ⟨i, hi⟩
        = (⟨(e.block_encoders.get ⟨i, hie⟩).get_block_info⟩,
           ([] : List EncodedBlock)) := by
    intro i hi hie
    have hvi : i < e.get_block_info_vec.length := by
      rw [hinfolen]
      omega
    have hmi : i < (e.get_block_info_vec.map
        (fun bi => ((⟨bi⟩ : BlockDecoder), ([] : List EncodedBlock)))).length := by
      rw [List.length_map]
      exact hvi
    rw [List.get_of_eq hdd ⟨i, hi⟩]
    rw [get_map_at (fun bi => ((⟨bi⟩ : BlockDecoder), ([] : List EncodedBlock)))
      e.get_block_info_vec i hmi hvi]
    rw [get_block_info_vec_get e i hvi hie]
  obtain ⟨L, hLdef⟩ : ∃ x : List (List EncodedBlock),
      x = List.zipWith (fun enc s => enc.generate_encoded_blocks s)
        e.block_encoders start_indices := ⟨_, rfl⟩
  have hLlen : L.length = e.block_encoders.length := by
    rw [hLdef, List.length_zipWith, hsl]
    exact min_self _
  have hLget : ∀ j (hj : j < L.length) (hjE : j < e.block_encoders.length)
      (hjS : j < start_indices.length),
      L.get ⟨j, hj⟩ = (e.block_encoders.get ⟨j, hjE⟩).generate_encoded_blocks
        (start_indices.get ⟨j, hjS⟩) := by
    intro j hj hjE hjS
    rw [List.get_of_eq hLdef ⟨j, hj⟩]
    rw [List.get_eq_getElem, List.getElem_zipWith]
    rw [List.get_eq_getElem, List.get_eq_getElem]
  have hLids : ∀ j (hj : j < L.length), ∀ b ∈ L.get ⟨j, hj⟩, b.block_id = 0 + j := by
    intro j hj b hb
    have hjE : j < e.block_encoders.length := by omega
    have hjS : j < start_indices.length := by omega
    rw [hLget j hj hjE hjS] at hb
    have hid := (encode_data_mem hb).1
    rw [hbid j hjE] at hid
    omega
  have hchunk : ∀ i (hi : i < chunks.length),
      chunks.get ⟨i, hi⟩ ≠ []
      ∧ (chunks.get ⟨i, hi⟩).length ≤ MAX_SYMBOLS_IN_BLOCK * packet_size := by
    intro i hi
    refine @chunksList_mem ℕ (MAX_SYMBOLS_IN_BLOCK * packet_size) hB payload
      (chunks.get ⟨i, hi⟩) ?_
    rw [← hchunksdef]
    exact List.get_mem chunks i hi
  have hnsym : ∀ i (hi : i < e.block_encoders.length),
      (e.block_encoders.get ⟨i, hi⟩).data.length / packet_size ≤ MAX_SYMBOLS_IN_BLOCK := by
    intro i hi
    have hic : i < chunks.length := by omega
    obtain ⟨_, hdta, _, _⟩ := hfields i hi hic
    rw [hdta]
    have hle := padData_length_le hps (hchunk i hic).2
    calc (padData packet_size (chunks.get ⟨i, hic⟩)).length / packet_size
        ≤ MAX_SYMBOLS_IN_BLOCK * packet_size / packet_size := Nat.div_le_div_right hle
      _ = MAX_SYMBOLS_IN_BLOCK := Nat.mul_div_cancel MAX_SYMBOLS_IN_BLOCK hps
  have hlenL : ∀ j (hj : j < L.length) (hjE : j < e.block_encoders.length),
      (L.get ⟨j, hj⟩).length
        = (e.block_encoders.get ⟨j, hjE⟩).data.length / packet_size := by
    intro j hj hjE
    have hjS : j < start_indices.length := by omega
    have hjc : j < chunks.length := by omega
    rw [hLget j hj hjE hjS]
    obtain ⟨_, _, _, hsz⟩ := hfields j hjE hjc
    unfold BlockEncoder.generate_encoded_blocks
    rw [encode_data_length _ _ _ _ _ _ (by rw [hsz]; exact hnsym j hjE)]
    rw [hsz]
  obtain ⟨hclen, hcfst, hcsnd, _⟩ := consume_blocks_spec packets d
  have hbufperm : ∀ i (hi : i < e.block_encoders.length) (hiL : i < L.length),
      (packets.filter (fun b => b.block_id == i)).Perm (L.get ⟨i, hiL⟩) := by
    intro i hi hiL
    have h1 := List.Perm.filter (fun b => b.block_id == i) hperm
    have h2 : e.generate_encoded_blocks start_indices = L.flatten := by
      rw [hLdef]
      rfl
    rw [h2] at h1
    rw [flatten_filter_eq_get i L 0 i (by omega) hiL (fun j hj => hLids j hj)] at h1
    exact h1
  have hdecode : ∀ i (h1 : i < ((d.consume_blocks packets).1).block_decoder_data.length)
      (h2 : i < chunks.length),
      BlockDecoder.decode_blocks
          (((d.consume_blocks packets).1).block_decoder_data.get ⟨i, h1⟩).1
          (((d.consume_blocks packets).1).block_decoder_data.get ⟨i, h1⟩).2
        = .ok (chunks.get ⟨i, h2⟩) := by
    intro i h1 h2
    have hi : i < e.block_encoders.length := by omega
    have hid : i < d.block_decoder_data.length := by omega
    have hiL : i < L.length := by omega
    have hiS : i < start_indices.length := by omega
    have hfst := hcfst i h1 hid
    have hsnd := hcsnd i h1 hid
    rw [hdpair i hid hi] at hfst hsnd
    rw [List.nil_append] at hsnd
    rw [hfst, hsnd]
    obtain ⟨hcfg, hdta, hpay, hsz⟩ := hfields i hi h2
    have hpermi := hbufperm i hi hiL
    have hbuflen : (packets.filter (fun b => b.block_id == i)).length
        = (e.block_encoders.get ⟨i, hi⟩).data.length / packet_size :=
      hpermi.length_eq.trans (hlenL i hiL hi)
    have hdlen : (e.block_encoders.get ⟨i, hi⟩).data.length
        = (padData packet_size (chunks.get ⟨i, h2⟩)).length :=
      congrArg List.length hdta
    have hnz : 0 < (e.block_encoders.get ⟨i, hi⟩).data.length / packet_size := by
      rw [hdlen]
      exact padData_div_pos hps (hchunk i h2).1
    unfold BlockDecoder.decode_blocks
    have hres : BlockDecoder.decode_data (e.block_encoders.get ⟨i, hi⟩).get_block_info
        (packets.filter (fun b => b.block_id == i))
        = .ok ((padData packet_size (chunks.get ⟨i, h2⟩)).take
            ((e.block_encoders.get ⟨i, hi⟩).get_block_info).payload_size) := by
      refine decode_data_ok ?_ ?_ ?_ ?_
      · intro hnil
        rw [hnil] at hbuflen
        exact Nat.ne_of_gt hnz (hbuflen.symm.trans List.length_nil)
      · intro b hb
        constructor
        · have hbi : (b.block_id == i) = true := (List.mem_filter.mp hb).2
          have hbeq : b.block_id = i := beq_iff_eq.mp hbi
          rw [hbeq]
          show i = (e.block_encoders.get ⟨i, hi⟩).block_id
          rw [hbid i hi]
        · have hbL : b ∈ L.get ⟨i, hiL⟩ := (hpermi.mem_iff).mp hb
          rw [hLget i hiL hi hiS] at hbL
          exact ((encode_data_mem hbL).2).trans hdta
      · show (padData packet_size (chunks.get ⟨i, h2⟩)).length
          = (e.block_encoders.get ⟨i, hi⟩).data.length
        exact hdlen.symm
      · show (e.block_encoders.get ⟨i, hi⟩).data.length
            / (e.block_encoders.get ⟨i, hi⟩).config.symbol_size
          ≤ (packets.filter (fun b => b.block_id == i)).length
        have hsym : (e.block_encoders.get ⟨i, hi⟩).config.symbol_size = packet_size :=
          (congrArg ObjectTransmissionInformation.symbol_size hcfg).trans rfl
        rw [hsym]
        exact Nat.le_of_eq hbuflen.symm
    show BlockDecoder.decode_data (e.block_encoders.get ⟨i, hi⟩).get_block_info
        (packets.filter (fun b => b.block_id == i)) = Except.ok (chunks.get ⟨i, h2⟩)
    have htake : (padData packet_size (chunks.get ⟨i, h2⟩)).take
        ((e.block_encoders.get ⟨i, hi⟩).get_block_info).payload_size
        = chunks.get ⟨i, h2⟩ := by
      show (padData packet_size (chunks.get ⟨i, h2⟩)).take
          (e.block_encoders.get ⟨i, hi⟩).payload_size = chunks.get ⟨i, h2⟩
      rw [hpay]
      exact padData_take packet_size (chunks.get ⟨i, h2⟩)
    exact hres.trans (congrArg Except.ok htake)
  have hcollect : collectExcept (fun x => BlockDecoder.decode_blocks x.1 x.2)
      ((d.consume_blocks packets).1).block_decoder_data = .ok chunks := by
    rw [collectExcept_ok_iff]
    rw [List.forall₂_iff_get]
    refine ⟨by omega, ?_⟩
    intro i h1 h2
    exact hdecode i h1 h2
  unfold RaptorQDecoder.decode_blocks
  rw [hcollect]
  show Except.ok (chunks.flatten) = Except.ok payload
  exact congrArg Except.ok
    ((congrArg List.flatten hchunksdef).trans (chunksList_flatten hB payload))

set_option maxRecDepth 100000 in
/-- Witness for `c1_roundtrip`: the 3-byte payload `[1,2,3]` (not a multiple
of the packet size) at `packet_size = 512`, with random start 0 and the
identity shuffle, decodes back to `[1,2,3]`. -/
theorem c1_witness :
    ((sampleDecoder.consume_blocks (sampleEncoder.generate_encoded_blocks [0])).1).decode_blocks
      = .ok [1, 2, 3] := by
  have hch : chunksList (MAX_SYMBOLS_IN_BLOCK * 512) [1, 2, 3] = [[1, 2, 3]] :=
    chunksList_eq_single (by decide) (by decide) (by decide)
  have henc : RaptorQEncoder.new 512 [1, 2, 3] none = .ok (sampleEncoder, none) := by
    simp only [RaptorQEncoder.new, hch]
    decide
  exact c1_roundtrip [1, 2, 3] 512 none sampleEncoder none [0]
    (sampleEncoder.generate_encoded_blocks [0]) sampleDecoder
    (by decide) (by decide) (by decide) henc (by decide) (by decide)
    (List.Perm.refl _) (by decide)

/-- Chunking a replicated list of exactly `n` whole chunks yields `n` copies
of the full chunk. -/
theorem chunksList_replicate_mul {α : Type _} {B : Nat} (hB : 0 < B) (x : α) :
    ∀ n, chunksList B (List.replicate (n * B) x)
      = List.replicate n (List.replicate B x) := by
  intro n
  induction n with
  | zero => simp [chunksList]
  | succ k ih =>
    have hsplit : List.replicate ((k + 1) * B) x
        = List.replicate B x ++ List.replicate (k * B) x := by
      rw [← List.replicate_add]
      congr 1
      rw [Nat.succ_mul, Nat.add_comm]
    have hne : List.replicate B x ++ List.replicate (k * B) x ≠ [] := by
      intro hnil
      have hlen := congrArg List.length hnil
      simp at hlen
      omega
    rw [hsplit]
    cases hys : List.replicate B x ++ List.replicate (k * B) x with
    | nil => exact absurd hys hne
    | cons y ys =>
      rw [chunksList, dif_neg (Nat.pos_iff_ne_zero.mp hB)]
      rw [← hys]
      rw [List.take_left' (List.length_replicate B x),
        List.drop_left' (List.length_replicate B x)]
      rw [ih, List.replicate_succ]

/-- Pointwise form of `BlockEncoder::new` on one maximal zero chunk: every
block id is accepted and the constructed encoder is `bigEncoder id`. -/
theorem bigEncoder_new (id : Nat) :
    BlockEncoder.new id 512 bigChunk none = .ok (bigEncoder id) := by
  have hlen : bigChunk.length = MAX_SYMBOLS_IN_BLOCK * 512 := List.length_replicate _ _
  have hpad : padData 512 bigChunk = bigChunk := by
    unfold padData
    rw [hlen]
    rw [if_neg (by decide)]
  unfold BlockEncoder.new
  rw [if_neg (by decide)]
  simp only [hpad, hlen]
  rw [if_neg (by decide)]
  have hns : MAX_SYMBOLS_IN_BLOCK * 512 / 512 % 2 ^ 16 = MAX_SYMBOLS_IN_BLOCK := by decide
  rw [hns]
  rfl

/-- The block-id list of the wrapped encoder vector: index `i` carries id
`i % 2 ^ 32`. -/
theorem bigEncoders_ids :
    (RaptorQEncoder.get_block_info_vec ⟨bigEncoders⟩).map
        (fun block_info => block_info.block_id)
      = (List.range (2 ^ 32 + 1)).map (fun i => i % 2 ^ 32) := by
  simp only [RaptorQEncoder.get_block_info_vec, bigEncoders, List.map_map]
  rfl

/-- Evaluation rule for `RaptorQEncoder::new` without a cache, given the
chunking of the payload and the per-chunk construction results. -/
theorem RaptorQEncoder.new_of_chunks {packet_size : Nat} {data : List Nat}
    {chunks : List (List Nat)} {encs : List BlockEncoder}
    (hch : chunksList (MAX_SYMBOLS_IN_BLOCK * packet_size) data = chunks)
    (hcoll : collectExcept
        (fun ic => BlockEncoder.new (ic.1 % 2 ^ 32) packet_size ic.2 none) chunks.enum
      = .ok encs) :
    RaptorQEncoder.new packet_size data none = .ok (⟨encs⟩, none) := by
  simp only [RaptorQEncoder.new]
  rw [hch, hcoll]

/-- Evaluation rule for `RaptorQDecoder::new` on a block info vector whose id
list is not exactly `0..n`. -/
theorem RaptorQDecoder.new_bad {block_info_vec : List BlockInfo}
    (hne : block_info_vec.map (fun block_info => block_info.block_id)
        ≠ List.range block_info_vec.length) :
    RaptorQDecoder.new block_info_vec = .error .BadBlockInfo := by
  simp only [RaptorQDecoder.new]
  rw [if_pos hne]

/-- Counterexample to C1 as stated: the claim's "for every payload byte
sequence" fails on `bigPayload`, which splits into `2 ^ 32 + 1` chunks.
`RaptorQEncoder::new` succeeds, but the `i as u32` cast on the chunk index
wraps, so blocks `0` and `2 ^ 32` are both tagged with block id `0`;
`get_block_info_vec` then carries duplicate ids, and `RaptorQDecoder::new`
rejects it with `BadBlockInfo` — no decoder can be built from this
encoder's block info, so the round trip cannot return the payload. -/
theorem c1_counterexample :
    RaptorQEncoder.new 512 bigPayload none = .ok (⟨bigEncoders⟩, none)
    ∧ RaptorQDecoder.new (RaptorQEncoder.get_block_info_vec ⟨bigEncoders⟩)
        = .error .BadBlockInfo := by
  constructor
  · have hBpos : 0 < MAX_SYMBOLS_IN_BLOCK * 512 := by decide
    have hchunks : chunksList (MAX_SYMBOLS_IN_BLOCK * 512) bigPayload
        = List.replicate (2 ^ 32 + 1) bigChunk := by
      unfold bigPayload bigChunk
      exact chunksList_replicate_mul hBpos 0 (2 ^ 32 + 1)
    have hpt : ∀ ic ∈ (List.replicate (2 ^ 32 + 1) bigChunk).enum,
        BlockEncoder.new (ic.1 % 2 ^ 32) 512 ic.2 none
          = .ok (bigEncoder (ic.1 % 2 ^ 32)) := by
      intro ic hic
      have hz : ic ∈ (List.range ((List.replicate (2 ^ 32 + 1) bigChunk).length)).zip
          (List.replicate (2 ^ 32 + 1) bigChunk) := by
        rw [← List.enum_eq_zip_range]
        exact hic
      have h2 : ic.2 = bigChunk := List.eq_of_mem_replicate (List.of_mem_zip hz).2
      rw [h2]
      exact bigEncoder_new (ic.1 % 2 ^ 32)
    have hcoll := collectExcept_map hpt
    have hmapeq : ((List.replicate (2 ^ 32 + 1) bigChunk).enum).map
        (fun ic => bigEncoder (ic.1 % 2 ^ 32)) = bigEncoders := by
      have hcomp : (fun ic : Nat × List Nat => bigEncoder (ic.1 % 2 ^ 32))
          = (fun i => bigEncoder (i % 2 ^ 32)) ∘ Prod.fst := rfl
      rw [hcomp, ← List.map_map, List.enum_map_fst, List.length_replicate]
      rfl
    rw [hmapeq] at hcoll
    exact RaptorQEncoder.new_of_chunks hchunks hcoll
  · have hlen2 : (RaptorQEncoder.get_block_info_vec ⟨bigEncoders⟩).length
        = 2 ^ 32 + 1 := by
      simp only [RaptorQEncoder.get_block_info_vec, bigEncoders, List.length_map,
        List.length_range]
    have hne : (RaptorQEncoder.get_block_info_vec ⟨bigEncoders⟩).map
          (fun block_info => block_info.block_id)
        ≠ List.range (RaptorQEncoder.get_block_info_vec ⟨bigEncoders⟩).length := by
      rw [bigEncoders_ids, hlen2]
      intro hcontra
      have hr : (List.range (2 ^ 32 + 1))[(2 ^ 32 : Nat)]? = some (2 ^ 32) :=
        List.getElem?_range (Nat.lt_succ_self _)
      have h3 := congrArg (fun l : List Nat => l[(2 ^ 32 : Nat)]?) hcontra
      simp only [List.getElem?_map, hr, Option.map_some'] at h3
      rw [Nat.mod_self] at h3
      exact absurd h3 (by decide)
    exact RaptorQDecoder.new_bad hne
